import Mathlib

/-!
# Shallow embedding of `src/scheduler.cpp`

This file models the HLS scheduler (topological canonicalizer, ASAP pass,
ALAP pass, resource- and delay-constrained list scheduler, and the `schedule`
orchestrator) as executable Lean functions, and proves properties of them.

Modelling conventions:
* C++ `int` is modelled as `Int` (no overflow at the scales involved;
  C++ signed overflow is undefined behaviour anyway); vector indices are `Nat`.
* C++ `double` delays are modelled as exact fractions (`Time`, an integer
  numerator/denominator pair compared by cross-multiplication); every
  comparison appearing in the claims under study is exact in both binary64
  and exact rational arithmetic.  Fractions are used instead of Mathlib's `ℚ`
  so that every arithmetic step reduces inside the kernel.
* The two unbounded loops of the list scheduler (the per-cycle outer loop and
  the ready-queue drain loop) are given explicit fuel and return `none` when
  the fuel runs out; a run that returns `none` for every fuel models
  non-termination of the C++ loop.
* `std::priority_queue` pops the element minimising `(priority, op.delay)`
  (the comparator at scheduler.cpp:183-186 is `greater`-like on both keys);
  ties beyond that are unspecified in C++, and the embedding determinises them
  by smallest index.
* The sparse ledger `delayByCycle` is a total function `Int → Nat → Time`
  defaulting to `0`, which matches `operator[]` default-construction.
-/

namespace Scheduler

/-- Exact model of the C++ `double` time values: a fraction `num / den`.
Denominators are kept positive by convention in every concrete value below;
comparisons and addition are the exact rational ones, by cross-multiplication,
so that they agree with the binary64 comparisons of the source for all values
appearing in the claims. -/
structure Time where
  num : Int
  den : Int
deriving DecidableEq, Repr

/-- The value `0.0`. -/
def Time.zero : Time := ⟨0, 1⟩

instance : Inhabited Time := ⟨Time.zero⟩

instance : OfNat Time 0 := ⟨Time.zero⟩

instance : OfNat Time 1 := ⟨⟨1, 1⟩⟩

/-- Exact addition of fractions. -/
def Time.add (a b : Time) : Time := ⟨a.num * b.den + b.num * a.den, a.den * b.den⟩

/-- Exact `≤` on fractions (cross-multiplication; dens positive by convention). -/
def Time.ble (a b : Time) : Bool := a.num * b.den ≤ b.num * a.den

/-- Exact `<` on fractions. -/
def Time.blt (a b : Time) : Bool := a.num * b.den < b.num * a.den

/-- Exact value equality of fractions (`==` on doubles). -/
def Time.beq (a b : Time) : Bool := a.num * b.den = b.num * a.den

/-- `std::max` on doubles: `(a < b) ? b : a`. -/
def Time.tmax (a b : Time) : Time := if a.blt b then b else a

/-- Operation kind record (`Op` in `common.h`, fields as used by
`scheduler.cpp` and described in the spec §3/§6). -/
structure Op where
  name : String
  latency : Int
  delay : Time
  limit : Int
deriving DecidableEq, Repr

instance : Inhabited Op := ⟨⟨"", 0, 0, 0⟩⟩

/-- One DFG statement (`Stmt`).  `idx` and `start_cycle` are the two fields the
scheduler mutates.  `sid` is the statement's identity and `prods` the ids of
the statements it consumes; these model the "inputs/outputs" from which the
dependency index recovers the edges (spec §3), and the core never writes them. -/
structure Stmt where
  idx : Nat
  op : Op
  start_cycle : Int
  sid : Nat
  prods : List Nat
deriving DecidableEq, Repr

instance : Inhabited Stmt := ⟨⟨0, default, 0, 0, []⟩⟩

/-- The per-cycle combinational-delay ledger `delayByCycle`:
`unordered_map<int, unordered_map<int, double>>` with `operator[]`
default-construction, i.e. a total map into `Time` defaulting to `0`. -/
def Ledger : Type := Int → Nat → Time

/-- The all-zero ledger (the state of a freshly constructed map). -/
def Ledger.empty : Ledger := fun _ _ => 0

/-- Point update `delayByCycle[c][k] = v`. -/
def Ledger.write (led : Ledger) (c : Int) (k : Nat) (v : Time) : Ledger :=
  fun c2 k2 => if c2 = c ∧ k2 = k then v else led c2 k2

/-- `get_deps_and_uses` (declared in `common.h`, which is not under `src/`).
Modelled from the spec: §2 and §4.1 say it derives `deps[i]` (positions of the
producers consumed by statement `i`) and `uses[i]` (positions of the consumers
reading statement `i`) from the DFG, as a pure function of the DFG; §3 says the
edges are recoverable from each statement's inputs.  Here statement `i`
consumes exactly the statements whose `sid` occurs in `stmts[i].prods`. -/
def get_deps_and_uses (g : List Stmt) : List (List Nat) × List (List Nat) :=
  let n := g.length
  ((List.range n).map fun i =>
      (List.range n).filter fun j => (g.getD i default).prods.contains (g.getD j default).sid,
   (List.range n).map fun i =>
      (List.range n).filter fun k => (g.getD k default).prods.contains (g.getD i default).sid)

/-- `validateTopologicalOrder` (scheduler.cpp:20-29): true iff no statement has
a dependency index exceeding its own `idx`. -/
def validateTopologicalOrder (stmts : List Stmt) (deps : List (List Nat)) : Bool :=
  stmts.all fun st => (deps.getD st.idx []).all fun d => d ≤ st.idx

/-- One visit of Kahn's queue loop (scheduler.cpp:56-66): pop the front,
append it to the order, decrement the in-degree of each of its users, and
enqueue users whose in-degree reaches zero. -/
def kahnLoop (uses : List (List Nat)) :
    Nat → List Nat → List Int → List Nat → List Nat
  | 0, _, _, order => order
  | fuel + 1, q, indeg, order =>
    match q with
    | [] => order
    | v :: rest =>
      let step := (uses.getD v []).foldl
        (fun (acc : List Nat × List Int) w =>
          let d := acc.2.getD w 0 - 1
          (if d = 0 then acc.1 ++ [w] else acc.1, acc.2.set w d))
        (rest, indeg)
      kahnLoop uses fuel step.1 step.2 (order ++ [v])

/-- `reorderToTopological` (scheduler.cpp:31-94).  If validation fails, run
Kahn's algorithm, physically reorder the statements (assigning `idx := i`),
and rebuild both adjacency arrays; the rebuild looks dependencies up as
`reorderedStatements[dep]->idx` — an index into the *new* arrangement — which
is what the C++ does at lines 84 and 88.  On an incomplete order the C++
throws `runtime_error`, modelled as `Except.error`. -/
def reorderToTopological (stmts : List Stmt) (deps uses : List (List Nat)) :
    Except String (List Stmt × List (List Nat) × List (List Nat)) :=
  if validateTopologicalOrder stmts deps then
    Except.ok (stmts, deps, uses)
  else
    let n := stmts.length
    let indeg : List Int := (List.range n).map fun i => ((deps.getD i []).length : Int)
    let seeds := (List.range n).filter fun i => indeg.getD i 0 = 0
    let order := kahnLoop uses (2 * n + 2) seeds indeg []
    if order.length < n then
      Except.error "Topological order cannot be fixed due to a cycle."
    else
      let reordered := (List.range n).map fun i =>
        let st := stmts.getD (order.getD i 0) default
        { st with idx := i }
      let deps2 := (List.range n).map fun i =>
        (deps.getD (order.getD i 0) []).map fun d => (reordered.getD d default).idx
      let uses2 := (List.range n).map fun i =>
        (uses.getD (order.getD i 0) []).map fun u => (reordered.getD u default).idx
      Except.ok (reordered, deps2, uses2)

/-- `scheduleASAP` (scheduler.cpp:96-117): reset all starts to `0`, then walk
the statements in position order; a statement with no dependencies starts at
cycle `1`, otherwise its start is raised to `pred.start + max(pred.latency-1,0) + 1`
for each dependency in turn (reading the current, partially updated list, as
the C++ does through its pointers).  Accumulates and returns the latency.
`asapRelax p l j` is the body of the inner dependency loop: raise the start of
the statement at position `p` to the completion of predecessor `j` plus one. -/
def asapRelax (p : Nat) (l : List Stmt) (j : Nat) : List Stmt :=
  let stc := l.getD p default
  let pred := l.getD j default
  let completion := pred.start_cycle + max (pred.op.latency - 1) 0
  l.set p { stc with start_cycle := max stc.start_cycle (completion + 1) }

/-- The body of the ASAP loop for one statement (scheduler.cpp:104-115). -/
def asapStep (deps : List (List Nat)) (acc : List Stmt × Int) (p : Nat) : List Stmt × Int :=
  let cur := acc.1
  let st := cur.getD p default
  let cur2 :=
    if (deps.getD st.idx []).isEmpty then
      cur.set p { st with start_cycle := 1 }
    else
      (deps.getD st.idx []).foldl (asapRelax p) cur
  let st2 := cur2.getD p default
  (cur2, max acc.2 (st2.start_cycle + max (st2.op.latency - 1) 0))

def scheduleASAP (stmts : List Stmt) (deps : List (List Nat)) : List Stmt × Int :=
  (List.range stmts.length).foldl (asapStep deps)
    (stmts.map fun s => { s with start_cycle := 0 }, 0)

/-- `scheduleALAP` (scheduler.cpp:119-149): reset starts, walk the statements
in reverse position order; a statement with no users starts at
`L - max(latency-1,0)`, otherwise at the minimum of `succ.start - max(latency,1)`
over its users starting from `L`, and only in that branch is the running
minimum `earliestCycle` updated.  Finally every start is shifted down by
`earliestCycle - 1` and the post-shift latency is returned.  `alapStep` is the
body for one statement (scheduler.cpp:127-141). -/
def alapStep (asapLatency : Int) (uses : List (List Nat)) (acc : List Stmt × Int)
    (p : Nat) : List Stmt × Int :=
  let cur := acc.1
  let st := cur.getD p default
  if (uses.getD st.idx []).isEmpty then
    (cur.set p { st with start_cycle := asapLatency - max (st.op.latency - 1) 0 }, acc.2)
  else
    let latestStart := (uses.getD st.idx []).foldl
      (fun (b : Int) k =>
        let succ := cur.getD k default
        min b (succ.start_cycle - max st.op.latency 1))
      asapLatency
    (cur.set p { st with start_cycle := latestStart }, min acc.2 latestStart)

def scheduleALAP (asapLatency : Int) (stmts : List Stmt) (uses : List (List Nat)) :
    List Stmt × Int :=
  let pass := (List.range stmts.length).reverse.foldl (alapStep asapLatency uses)
    (stmts.map fun s => { s with start_cycle := 0 }, asapLatency)
  let s2 := pass.1.map fun s => { s with start_cycle := s.start_cycle - (pass.2 - 1) }
  (s2, s2.foldl (fun m s => max m (s.start_cycle + max (s.op.latency - 1) 0)) 0)

/-- `calculateResourceUsage` (scheduler.cpp:169-181): `-2` for unlimited ops,
otherwise the number of already-started statements of the same op *name* whose
busy interval `[start, start+latency)` contains `cycle`. -/
def calculateResourceUsage (stmts : List Stmt) (cycle : Int) (operation : Op) : Int :=
  if operation.limit < 0 then -2
  else
    (stmts.countP fun st =>
      st.start_cycle ≠ 0 ∧ st.op.name = operation.name ∧
        st.start_cycle ≤ cycle ∧ cycle < st.start_cycle + st.op.latency : Nat)

/-- Strict "comes out of the priority queue first" order: smaller ALAP
priority first, then smaller `op.delay`, then (determinising what C++ leaves
unspecified) smaller index. -/
def popsBefore (pri : List Int) (stmts : List Stmt) (a b : Nat) : Bool :=
  let pa := pri.getD a 0
  let pb := pri.getD b 0
  if pa ≠ pb then decide (pa < pb)
  else
    let da := (stmts.getD a default).op.delay
    let db := (stmts.getD b default).op.delay
    if da.beq db then decide (a < b) else da.blt db

/-- Pop the top of the ready queue: select the element popped first under
`popsBefore` and remove it. -/
def popTop (pri : List Int) (stmts : List Stmt) :
    List Nat → Option (Nat × List Nat)
  | [] => none
  | h :: t =>
    let m := t.foldl (fun b x => if popsBefore pri stmts x b then x else b) h
    some (m, (h :: t).erase m)

/-- Result of draining the ready queue for one cycle: the updated statements,
the leftover queue, the updated ledger, and the indices scheduled this cycle. -/
structure DrainResult where
  stmts : List Stmt
  queue : List Nat
  led : Ledger
  sched : List Nat

/-- The inner `while (!readyQueue.empty())` drain loop of `scheduleByList`
(scheduler.cpp:204-233).  Pop the top index `i`; read its accumulated delay
`usedDelay` for the current cycle.  A combinational op (`limit < 0`) is
scheduled if `delay + usedDelay ≤ T`, propagating `usedDelay + delay` to the
ledger entry of every user at the *current* cycle; otherwise it is pushed back
and the loop continues (so it is popped again).  A physical op is scheduled if
`calculateResourceUsage < limit`, seeding each combinational user's ledger
entry at cycle `current + latency - 1` with `max(existing, delay)`; otherwise
it is pushed back and the loop breaks. -/
def drain (T : Time) (uses : List (List Nat)) (pri : List Int) (cycle : Int) :
    Nat → List Stmt → List Nat → Ledger → List Nat → Option DrainResult
  | 0, _, _, _, _ => none
  | fuel + 1, stmts, q, led, sched =>
    match popTop pri stmts q with
    | none => some ⟨stmts, [], led, sched⟩
    | some (i, q2) =>
      let st := stmts.getD i default
      let used := led cycle i
      if st.op.limit < 0 then
        if (st.op.delay.add used).ble T then
          let stmts2 := stmts.set i { st with start_cycle := cycle }
          let led2 := (uses.getD i []).foldl
            (fun (l : Ledger) k =>
              let succ := stmts2.getD k default
              l.write cycle succ.idx ((l cycle succ.idx).tmax ((l cycle i).add st.op.delay)))
            led
          drain T uses pri cycle fuel stmts2 q2 led2 (sched ++ [i])
        else
          drain T uses pri cycle fuel stmts (q2 ++ [i]) led sched
      else if calculateResourceUsage stmts cycle st.op < st.op.limit then
        let stmts2 := stmts.set i { st with start_cycle := cycle }
        let led2 := (uses.getD i []).foldl
          (fun (l : Ledger) k =>
            let succ := stmts2.getD k default
            if succ.op.limit < 0 then
              l.write (cycle + st.op.latency - 1) succ.idx
                ((l (cycle + st.op.latency - 1) succ.idx).tmax st.op.delay)
            else l)
          led
        drain T uses pri cycle fuel stmts2 q2 led2 (sched ++ [i])
      else
        some ⟨stmts, q2 ++ [i], led, sched⟩

/-- Readiness test used when promoting from `notReady` (scheduler.cpp:239-248):
every dependency is completed and `pred.start + max(pred.latency, 1) ≤ cycle + 1`. -/
def isReady (deps : List (List Nat)) (stmts : List Stmt) (completed : Finset Nat)
    (cycle : Int) (i : Nat) : Bool :=
  (deps.getD i []).all fun j =>
    j ∈ completed ∧
      (stmts.getD j default).start_cycle + max (stmts.getD j default).op.latency 1 ≤ cycle + 1

/-- State of the outer per-cycle loop of `scheduleByList`. -/
structure LoopState where
  stmts : List Stmt
  completed : Finset Nat
  notReady : List Nat
  queue : List Nat
  led : Ledger
  cycle : Int

/-- The outer `while (completedStatements.size() < statements.size())` loop of
`scheduleByList` (scheduler.cpp:201-257): drain the ready queue for this
cycle, commit the scheduled indices, promote newly ready statements, and
advance the cycle. -/
def listLoop (n : Nat) (T : Time) (deps uses : List (List Nat)) (pri : List Int) :
    Nat → LoopState → Option (List Stmt)
  | 0, _ => none
  | fuel + 1, st =>
    if st.completed.card < n then
      match drain T uses pri st.cycle fuel st.stmts st.queue st.led [] with
      | none => none
      | some r =>
        let completed2 := r.sched.foldl (fun (s : Finset Nat) i => insert i s) st.completed
        let promoted := st.notReady.filter (isReady deps r.stmts completed2 st.cycle)
        let notReady2 := st.notReady.filter fun i => ¬ isReady deps r.stmts completed2 st.cycle i
        listLoop n T deps uses pri fuel
          ⟨r.stmts, completed2, notReady2, r.queue ++ promoted, r.led, st.cycle + 1⟩
    else some st.stmts

/-- Final latency `max_i (start_cycle[i] + max(latency[i]-1, 0))`
(scheduler.cpp:259-263, also 114 and 146). -/
def finalLatency (stmts : List Stmt) : Int :=
  stmts.foldl (fun m s => max m (s.start_cycle + max (s.op.latency - 1) 0)) 0

/-- Attach the final latency (scheduler.cpp:259-263) to a finished run. -/
def wrapResult : Option (List Stmt) → Option (List Stmt × Int)
  | none => none
  | some out => some (out, finalLatency out)

/-- `scheduleByList` (scheduler.cpp:151-264).  Snapshot the (ALAP) starts as
priorities, reset starts to `0`, seed the ready queue with all statements
having no dependencies, and run the per-cycle loop; afterwards compute the
final latency.  `none` models non-termination (fuel exhausted). -/
def scheduleByList (stmts : List Stmt) (deps uses : List (List Nat)) (T : Time)
    (fuel : Nat) : Option (List Stmt × Int) :=
  let n := stmts.length
  let pri := stmts.map (·.start_cycle)
  let s0 := stmts.map fun s => { s with start_cycle := 0 }
  let seeds := (List.range n).filter fun i => (deps.getD i []).isEmpty
  let nr0 := (List.range n).filter fun i => ¬ (deps.getD i []).isEmpty
  wrapResult (listLoop n T deps uses pri fuel ⟨s0, ∅, nr0, seeds, Ledger.empty, 1⟩)

/-- The variant of the drain loop the spec describes for delay decisions once
one observes that every ledger read at decision time yields `0`: a popped
combinational statement is scheduled in the current cycle iff its own
`op.delay ≤ T`, and no ledger is maintained at all.  Used to state that the
ledger writes of `drain` never influence any scheduling decision. -/
def drainSpec (T : Time) (uses : List (List Nat)) (pri : List Int) (cycle : Int) :
    Nat → List Stmt → List Nat → List Nat → Option (List Stmt × List Nat × List Nat)
  | 0, _, _, _ => none
  | fuel + 1, stmts, q, sched =>
    match popTop pri stmts q with
    | none => some (stmts, [], sched)
    | some (i, q2) =>
      let st := stmts.getD i default
      if st.op.limit < 0 then
        if st.op.delay.ble T then
          drainSpec T uses pri cycle fuel (stmts.set i { st with start_cycle := cycle })
            q2 (sched ++ [i])
        else
          drainSpec T uses pri cycle fuel stmts (q2 ++ [i]) sched
      else if calculateResourceUsage stmts cycle st.op < st.op.limit then
        drainSpec T uses pri cycle fuel (stmts.set i { st with start_cycle := cycle })
          q2 (sched ++ [i])
      else
        some (stmts, q2 ++ [i], sched)

/-- State of the ledger-free outer loop. -/
structure LoopStateSpec where
  stmts : List Stmt
  completed : Finset Nat
  notReady : List Nat
  queue : List Nat
  cycle : Int

/-- The outer per-cycle loop driven by `drainSpec` instead of `drain`. -/
def listLoopSpec (n : Nat) (T : Time) (deps uses : List (List Nat)) (pri : List Int) :
    Nat → LoopStateSpec → Option (List Stmt)
  | 0, _ => none
  | fuel + 1, st =>
    if st.completed.card < n then
      match drainSpec T uses pri st.cycle fuel st.stmts st.queue [] with
      | none => none
      | some r =>
        let completed2 := r.2.2.foldl (fun (s : Finset Nat) i => insert i s) st.completed
        let promoted := st.notReady.filter (isReady deps r.1 completed2 st.cycle)
        let notReady2 := st.notReady.filter fun i => ¬ isReady deps r.1 completed2 st.cycle i
        listLoopSpec n T deps uses pri fuel
          ⟨r.1, completed2, notReady2, r.2.1 ++ promoted, st.cycle + 1⟩
    else some st.stmts

/-- `scheduleByList` rebuilt on the ledger-free loop. -/
def scheduleByListSpec (stmts : List Stmt) (deps uses : List (List Nat)) (T : Time)
    (fuel : Nat) : Option (List Stmt × Int) :=
  let n := stmts.length
  let pri := stmts.map (·.start_cycle)
  let s0 := stmts.map fun s => { s with start_cycle := 0 }
  let seeds := (List.range n).filter fun i => (deps.getD i []).isEmpty
  let nr0 := (List.range n).filter fun i => ¬ (deps.getD i []).isEmpty
  wrapResult (listLoopSpec n T deps uses pri fuel ⟨s0, ∅, nr0, seeds, 1⟩)

/-- `schedule` (scheduler.cpp:266-279): rebuild the adjacency caches,
canonicalize, run ASAP, feed its latency to ALAP, and run the list scheduler
on the ALAP-annotated statements.  The returned value is the latency the C++
prints.  `Except.error` models the canonicalizer's `runtime_error`; the inner
`none` models a non-terminating list-scheduler loop. -/
def schedule (g : List Stmt) (cycleTime : Time) (fuel : Nat) :
    Except String (Option (List Stmt × Int)) :=
  let du := get_deps_and_uses g
  match reorderToTopological g du.1 du.2 with
  | Except.error e => Except.error e
  | Except.ok (g1, deps1, uses1) =>
    let asap := scheduleASAP g1 deps1
    let alap := scheduleALAP asap.2 asap.1 uses1
    Except.ok (scheduleByList alap.1 deps1 uses1 cycleTime fuel)

/-! ## Concrete DFGs used to settle the claims -/

/-- A purely combinational op: `latency=0, delay=0.3, limit=-1`. -/
def combOp : Op := ⟨"f", 0, ⟨3, 10⟩, -1⟩

/-- A one-cycle unlimited op: `latency=1, delay=0, limit=-1`. -/
def unitOp : Op := ⟨"a", 1, 0, -1⟩

/-- A ten-cycle unlimited op. -/
def longOp : Op := ⟨"c", 10, 0, -1⟩

/-- A three-cycle unlimited op. -/
def tripleOp : Op := ⟨"d", 3, 0, -1⟩

/-- A physical op with `limit = 0`: no unit of it exists. -/
def cap0Op : Op := ⟨"A", 1, 0, 0⟩

/-- A combinational op with zero delay. -/
def zeroComb : Op := ⟨"B", 0, 0, -1⟩

/-- A combinational op whose delay `2` exceeds any clock period under test. -/
def bigDelayOp : Op := ⟨"X", 0, ⟨2, 1⟩, -1⟩

/-- The spec's `MUL`: `latency=1, limit=2`. -/
def mulOp : Op := ⟨"MUL", 1, 0, 2⟩

/-- Spec scenario 3: the chain `A → B → C` of three `combOp` statements. -/
def chainC1 : List Stmt :=
  [⟨0, combOp, 0, 0, []⟩, ⟨1, combOp, 0, 1, [0]⟩, ⟨2, combOp, 0, 2, [1]⟩]

/-- What the code actually produces on `chainC1`: starts `[1, 2, 3]`. -/
def chainC1out : List Stmt :=
  [⟨0, combOp, 1, 0, []⟩, ⟨1, combOp, 2, 1, [0]⟩, ⟨2, combOp, 3, 2, [1]⟩]

/-- ALAP counterexample graph: `A → B` (both latency 1) with an independent
latency-10 statement `C`. -/
def alapCex : List Stmt :=
  [⟨0, unitOp, 0, 0, []⟩, ⟨1, unitOp, 0, 1, [0]⟩, ⟨2, longOp, 0, 2, []⟩]

/-- Canonicalizer counterexample: two statements presented out of order, the
second producing the first. -/
def swapPair : List Stmt :=
  [⟨0, unitOp, 0, 0, [1]⟩, ⟨1, unitOp, 0, 1, []⟩]

/-- Idempotence counterexample: statement `sid 0` consumes `sid 2`; `sid 3`
has latency 3; presented out of topological order so the canonicalizer runs. -/
def idemCex : List Stmt :=
  [⟨0, unitOp, 0, 0, [2]⟩, ⟨1, unitOp, 0, 1, []⟩, ⟨2, unitOp, 0, 2, []⟩,
   ⟨3, tripleOp, 0, 3, []⟩]

/-- The statements `idemCex` turns into after the first `schedule` call. -/
def idemCexRun1 : List Stmt :=
  [⟨0, unitOp, 1, 1, []⟩, ⟨1, unitOp, 1, 2, []⟩, ⟨2, tripleOp, 1, 3, []⟩,
   ⟨3, unitOp, 4, 0, [2]⟩]

/-- The statements produced by a second `schedule` call on `idemCexRun1`. -/
def idemCexRun2 : List Stmt :=
  [⟨0, unitOp, 1, 1, []⟩, ⟨1, unitOp, 1, 2, []⟩, ⟨2, tripleOp, 1, 3, []⟩,
   ⟨3, unitOp, 2, 0, [2]⟩]

/-- Stuck-scheduler input: a `limit = 0` statement with a dependent consumer. -/
def stuckPair : List Stmt :=
  [⟨0, cap0Op, 0, 0, []⟩, ⟨1, zeroComb, 0, 1, [0]⟩]

/-- Dependency lists of `stuckPair`. -/
def stuckDeps : List (List Nat) := [[], [0]]

/-- Use lists of `stuckPair`. -/
def stuckUses : List (List Nat) := [[1], []]

/-- ALAP priorities of `stuckPair`. -/
def stuckPri : List Int := [1, 2]

/-- A single statement whose delay `2` exceeds the clock period `1`. -/
def oneBigDelay : List Stmt := [⟨0, bigDelayOp, 0, 0, []⟩]

/-- A single zero-delay statement, scheduled against clock period `-1`. -/
def oneZeroDelay : List Stmt := [⟨0, zeroComb, 0, 0, []⟩]

/-- Dependency lists of a one-statement DFG. -/
def oneDeps : List (List Nat) := [[]]

/-- Use lists of a one-statement DFG. -/
def oneUses : List (List Nat) := [[]]

/-- ALAP priorities of a one-statement DFG. -/
def onePri : List Int := [1]

/-- Spec scenario 4: four independent `MUL` statements. -/
def fourMuls : List Stmt :=
  [⟨0, mulOp, 0, 0, []⟩, ⟨1, mulOp, 0, 1, []⟩, ⟨2, mulOp, 0, 2, []⟩,
   ⟨3, mulOp, 0, 3, []⟩]

/-- `chainC1` with its ALAP starts `[1, 2, 3]`, the exact statement list
handed to `scheduleByList` by `schedule chainC1`. -/
def chainPri : List Stmt :=
  [⟨0, combOp, 1, 0, []⟩, ⟨1, combOp, 2, 1, [0]⟩, ⟨2, combOp, 3, 2, [1]⟩]

/-- Dependency lists of `chainC1`. -/
def chainDeps : List (List Nat) := [[], [0], [1]]

/-- Use lists of `chainC1`. -/
def chainUses : List (List Nat) := [[1], [2], []]

/-- ALAP priorities of `chainC1`. -/
def chainPriKeys : List Int := [1, 2, 3]

/-- `chainC1` after cycle 1 of the list scheduler. -/
def chainMidA : List Stmt :=
  [⟨0, combOp, 1, 0, []⟩, ⟨1, combOp, 0, 1, [0]⟩, ⟨2, combOp, 0, 2, [1]⟩]

/-- `chainC1` after cycle 2 of the list scheduler. -/
def chainMidB : List Stmt :=
  [⟨0, combOp, 1, 0, []⟩, ⟨1, combOp, 2, 1, [0]⟩, ⟨2, combOp, 0, 2, [1]⟩]

/-- Ledger after cycle 1 on the chain: `0.3` propagated to statement 1. -/
def chainLedA : Ledger := Ledger.write Ledger.empty 1 1 ⟨3, 10⟩

/-- Ledger after cycle 2 on the chain: `0.3` also propagated to statement 2. -/
def chainLedB : Ledger := Ledger.write chainLedA 2 2 ⟨3, 10⟩

/-- Adjacency produced by the (buggy) canonicalizer on `idemCex`. -/
def idemDeps1 : List (List Nat) := [[], [], [], [2]]

/-- Use lists for the first run on `idemCex`. -/
def idemUses1 : List (List Nat) := [[], [0], [], []]

/-- ALAP priorities for the first run on `idemCex`. -/
def idemPri1 : List Int := [6, 1, 4, 6]

/-- Statement arrangement after canonicalizing `idemCex`, ALAP-annotated. -/
def idemAlap1 : List Stmt :=
  [⟨0, unitOp, 6, 1, []⟩, ⟨1, unitOp, 1, 2, []⟩, ⟨2, tripleOp, 4, 3, []⟩,
   ⟨3, unitOp, 6, 0, [2]⟩]

/-- The canonicalized `idemCex` statements with starts reset to `0`. -/
def idemZero : List Stmt :=
  [⟨0, unitOp, 0, 1, []⟩, ⟨1, unitOp, 0, 2, []⟩, ⟨2, tripleOp, 0, 3, []⟩,
   ⟨3, unitOp, 0, 0, [2]⟩]

/-- The canonicalized `idemCex` statements after cycle 1 (starts `[1,1,1,0]`). -/
def idemMid : List Stmt :=
  [⟨0, unitOp, 1, 1, []⟩, ⟨1, unitOp, 1, 2, []⟩, ⟨2, tripleOp, 1, 3, []⟩,
   ⟨3, unitOp, 0, 0, [2]⟩]

/-- Ledger after cycle 1 of the first run on `idemCex`. -/
def idemLedA : Ledger := Ledger.write Ledger.empty 1 0 ⟨0, 1⟩

/-- Correct adjacency recomputed for the second run (on `idemCexRun1`). -/
def idemDeps2 : List (List Nat) := [[], [], [], [1]]

/-- Use lists for the second run. -/
def idemUses2 : List (List Nat) := [[], [3], [], []]

/-- ALAP priorities for the second run. -/
def idemPri2 : List Int := [2, 1, 0, 2]

/-- `idemCexRun1` ALAP-annotated for the second run. -/
def idemAlap2 : List Stmt :=
  [⟨0, unitOp, 2, 1, []⟩, ⟨1, unitOp, 1, 2, []⟩, ⟨2, tripleOp, 0, 3, []⟩,
   ⟨3, unitOp, 2, 0, [2]⟩]

/-- Ledger after cycle 1 of the second run. -/
def idemLedB : Ledger := Ledger.write Ledger.empty 1 3 ⟨0, 1⟩

/-- End of the busy interval contribution of statement `q`:
`start_cycle + max(latency - 1, 0)`. -/
def busyEnd (out : List Stmt) (q : Nat) : Int :=
  (out.getD q default).start_cycle + max ((out.getD q default).op.latency - 1) 0

/-- The ASAP recurrence of the spec at statement `q`, over the final starts. -/
def asapCharacterized (deps : List (List Nat)) (out : List Stmt) (q : Nat) : Prop :=
  (deps.getD q [] = [] → (out.getD q default).start_cycle = 1) ∧
  (∀ j ∈ deps.getD q [], busyEnd out j + 1 ≤ (out.getD q default).start_cycle) ∧
  (deps.getD q [] ≠ [] →
    ∃ j ∈ deps.getD q [], (out.getD q default).start_cycle = busyEnd out j + 1)

/-- Invariant of the ASAP pass after processing the first `m` statements. -/
def asapInv (stmts : List Stmt) (deps : List (List Nat)) (m : Nat)
    (acc : List Stmt × Int) : Prop :=
  acc.1.length = stmts.length ∧
  (∀ q, m ≤ q → acc.1.getD q default = { stmts.getD q default with start_cycle := 0 }) ∧
  (∀ q, q < m →
    (acc.1.getD q default).idx = (stmts.getD q default).idx ∧
    (acc.1.getD q default).op = (stmts.getD q default).op ∧
    1 ≤ (acc.1.getD q default).start_cycle) ∧
  (∀ q, q < m → asapCharacterized deps acc.1 q) ∧
  0 ≤ acc.2 ∧
  (∀ q, q < m → busyEnd acc.1 q ≤ acc.2) ∧
  (acc.2 = 0 ∨ ∃ q, q < m ∧ acc.2 = busyEnd acc.1 q)


/-! ## Invariants of the list-scheduler loop -/

/-- Projection of a drain result onto its ledger-free components. -/
def projDrain (r : DrainResult) : List Stmt × List Nat × List Nat :=
  (r.stmts, r.queue, r.sched)

/-- Statement-table invariant: the list has the base length, every entry
agrees with `base` except possibly on `start_cycle`, and every assigned start
lies in `[1, cur]`. -/
def SInv (base : List Stmt) (cur : Int) (ss : List Stmt) : Prop :=
  ss.length = base.length ∧
  (∀ j, j < base.length →
    ss.getD j default
      = { base.getD j default with start_cycle := (ss.getD j default).start_cycle }) ∧
  (∀ s2 ∈ ss, s2.start_cycle ≠ 0 → 1 ≤ s2.start_cycle ∧ s2.start_cycle ≤ cur)

/-- Ready-queue invariant: members are in range and unscheduled, and each of
their dependencies is completed and finishes by the current cycle. -/
def QInv (deps : List (List Nat)) (C : Finset Nat) (cur : Int) (n : Nat)
    (ss : List Stmt) (q : List Nat) : Prop :=
  ∀ j ∈ q, j < n ∧ (ss.getD j default).start_cycle = 0 ∧
    ∀ d ∈ deps.getD j [], d ∈ C ∧
      (ss.getD d default).start_cycle + max (ss.getD d default).op.latency 1 ≤ cur

/-- Precedence invariant: every scheduled statement starts no earlier than
the completion of each of its (then already scheduled) dependencies. -/
def GInv (deps : List (List Nat)) (n : Nat) (ss : List Stmt) : Prop :=
  ∀ j, j < n → (ss.getD j default).start_cycle ≠ 0 →
    ∀ d ∈ deps.getD j [], (ss.getD d default).start_cycle ≠ 0 ∧
      (ss.getD d default).start_cycle + max (ss.getD d default).op.latency 1
        ≤ (ss.getD j default).start_cycle

/-- Resource invariant: for every op kind whose name determines its record
among the base statements and whose limit is non-negative, at every cycle `c`
the number of scheduled statements of that kind busy at `c` is at most the
limit. -/
def RInv (base : List Stmt) (ss : List Stmt) : Prop :=
  ∀ op : Op, 0 ≤ op.limit →
    (∀ j, j < base.length → (base.getD j default).op.name = op.name →
      (base.getD j default).op = op) →
    ∀ c : Int,
      ((ss.countP fun s2 => s2.start_cycle ≠ 0 ∧ s2.op.name = op.name ∧
          s2.start_cycle ≤ c ∧ c < s2.start_cycle + s2.op.latency : Nat) : Int) ≤ op.limit

/-- Ledger invariant: every nonzero ledger entry for a consumer `j` was
written on behalf of an already scheduled producer `i` of `j`, at a cycle
strictly before the first cycle at which `j` can be popped from the ready
queue. -/
def LedInv (uses : List (List Nat)) (n : Nat) (ss : List Stmt) (led : Ledger) : Prop :=
  ∀ (c : Int) (j : Nat), led c j ≠ Time.zero →
    ∃ i, i < n ∧ j ∈ uses.getD i [] ∧ (ss.getD i default).start_cycle ≠ 0 ∧
      c < (ss.getD i default).start_cycle + max (ss.getD i default).op.latency 1

/-- Well-formedness of the adjacency caches: `idx` equals position and `uses`
is contained in the transpose of `deps`. -/
def WFAdj (base : List Stmt) (deps uses : List (List Nat)) : Prop :=
  (∀ j, j < base.length → (base.getD j default).idx = j) ∧
  (∀ i, i < base.length → ∀ k ∈ uses.getD i [], k < base.length ∧ i ∈ deps.getD k [])

/-- The full invariant of the outer per-cycle loop, over the components of a
loop state. -/
def LInv (base : List Stmt) (deps uses : List (List Nat)) (ss : List Stmt)
    (C : Finset Nat) (nr q : List Nat) (led : Ledger) (cyc : Int) : Prop :=
  SInv base cyc ss ∧
  QInv deps C cyc base.length ss q ∧
  GInv deps base.length ss ∧
  RInv base ss ∧
  (∀ j ∈ nr, j < base.length ∧ (ss.getD j default).start_cycle = 0) ∧
  (∀ j ∈ C, j < base.length ∧ (ss.getD j default).start_cycle ≠ 0) ∧
  q.Nodup ∧ nr.Nodup ∧
  (∀ j ∈ q, j ∉ nr) ∧
  1 ≤ cyc ∧
  (WFAdj base deps uses → LedInv uses base.length ss led)


def fourNil : List (List Nat) := [[], [], [], []]

def fourPri : List Int := [0, 0, 0, 0]

def fourMulsMid : List Stmt :=
  [⟨0, mulOp, 1, 0, []⟩, ⟨1, mulOp, 1, 1, []⟩, ⟨2, mulOp, 0, 2, []⟩,
   ⟨3, mulOp, 0, 3, []⟩]

def fourMulsOut : List Stmt :=
  [⟨0, mulOp, 1, 0, []⟩, ⟨1, mulOp, 1, 1, []⟩, ⟨2, mulOp, 2, 2, []⟩,
   ⟨3, mulOp, 2, 3, []⟩]

/-- A combinational op with delay `0.6` (limit `-1`). -/
def halfOp : Op := ⟨"g", 0, ⟨6, 10⟩, -1⟩

/-- C2 counterexample DFG, presented out of order: position 0 consumes the
statement at position 2 (edge `2 → 0`); delays `0.3, 0.6, 0.6, 0.3`. -/
def cexC2 : List Stmt :=
  [⟨0, combOp, 0, 0, [2]⟩, ⟨1, halfOp, 0, 1, []⟩, ⟨2, halfOp, 0, 2, []⟩,
   ⟨3, combOp, 0, 3, []⟩]

/-- What `reorderToTopological` makes of `cexC2`: the statements in Kahn
order `[1, 2, 3, 0]` with fresh `idx`. -/
def cexReordered : List Stmt :=
  [⟨0, halfOp, 0, 1, []⟩, ⟨1, halfOp, 0, 2, []⟩, ⟨2, combOp, 0, 3, []⟩,
   ⟨3, combOp, 0, 0, [2]⟩]

/-- The stale dependency lists the canonicalizer rebuilds for `cexC2`: the
old index `2` survives untranslated (see C7). -/
def cexDeps2 : List (List Nat) := [[], [], [], [2]]

/-- The stale use lists: position 1 (the old producer's new slot) wrongly
lists position 0 — now a different statement — as its consumer. -/
def cexUses2 : List (List Nat) := [[], [0], [], []]

/-- ALAP priorities of the reordered `cexC2` under the stale adjacency. -/
def cexPri : List Int := [4, 1, 4, 4]

/-- The ALAP-annotated statements `schedule cexC2` hands to the list
scheduler. -/
def cexAlap : List Stmt :=
  [⟨0, halfOp, 4, 1, []⟩, ⟨1, halfOp, 1, 2, []⟩, ⟨2, combOp, 4, 3, []⟩,
   ⟨3, combOp, 4, 0, [2]⟩]

/-- The list-scheduler state in which the drain loop spins: positions 1 and 2
scheduled at cycle 1, position 0 forever re-popped. -/
def cexSpin : List Stmt :=
  [⟨0, halfOp, 0, 1, []⟩, ⟨1, halfOp, 1, 2, []⟩, ⟨2, combOp, 1, 3, []⟩,
   ⟨3, combOp, 0, 0, [2]⟩]

/-- The ledger after position 1 is scheduled: through the stale use list it
wrote delay `0.6` into position 0's entry for the current cycle. -/
def cexLed : Ledger := Ledger.write Ledger.empty 1 0 ⟨6, 10⟩

/-- Ledger-free run of the same data after cycle 1: all three seeds land in
cycle 1. -/
def cexSpecMid1 : List Stmt :=
  [⟨0, halfOp, 1, 1, []⟩, ⟨1, halfOp, 1, 2, []⟩, ⟨2, combOp, 1, 3, []⟩,
   ⟨3, combOp, 0, 0, [2]⟩]

/-- Final schedule of the ledger-free run: starts `[1, 1, 1, 2]`, latency 2. -/
def cexSpecOut : List Stmt :=
  [⟨0, halfOp, 1, 1, []⟩, ⟨1, halfOp, 1, 2, []⟩, ⟨2, combOp, 1, 3, []⟩,
   ⟨3, combOp, 2, 0, [2]⟩]

/-! ## Theorems -/

set_option maxHeartbeats 1000000

/-- Definitional unfolding of one iteration of the outer per-cycle loop. -/
theorem listLoop_succ (n : Nat) (T : Time) (deps uses : List (List Nat)) (pri : List Int)
    (fuel : Nat) (st : LoopState) :
    listLoop n T deps uses pri (fuel + 1) st =
      if st.completed.card < n then
        match drain T uses pri st.cycle fuel st.stmts st.queue st.led [] with
        | none => none
        | some r =>
          listLoop n T deps uses pri fuel
            ⟨r.stmts, r.sched.foldl (fun s i => insert i s) st.completed,
             st.notReady.filter fun i =>
               ¬ isReady deps r.stmts (r.sched.foldl (fun s i => insert i s) st.completed)
                   st.cycle i,
             r.queue ++ st.notReady.filter
               (isReady deps r.stmts (r.sched.foldl (fun s i => insert i s) st.completed)
                 st.cycle),
             r.led, st.cycle + 1⟩
      else some st.stmts := rfl

theorem getD_set_ne (l : List Stmt) {p q : Nat} (v : Stmt) (h : p ≠ q) :
    (l.set p v).getD q default = l.getD q default := by
  simp [List.getD_eq_getElem?_getD, List.getElem?_set_ne h]

theorem getD_set_self (l : List Stmt) {p : Nat} (v : Stmt) (h : p < l.length) :
    (l.set p v).getD p default = v := by
  simp [List.getD_eq_getElem?_getD, List.getElem?_set_self h]

theorem set_getD_self (l : List Stmt) {p : Nat} (h : p < l.length) :
    l.set p (l.getD p default) = l := by
  apply List.ext_getElem?
  intro q
  by_cases hq : p = q
  · subst hq
    rw [List.getElem?_set_self h, List.getD_eq_getElem?_getD, List.getElem?_eq_getElem h]
    rfl
  · exact List.getElem?_set_ne hq

theorem le_foldl_max (f : Nat → Int) :
    ∀ (l : List Nat) (b : Int), b ≤ l.foldl (fun a j => max a (f j)) b
  | [], _ => le_refl _
  | x :: t, b => le_trans (le_max_left b (f x)) (le_foldl_max f t _)

theorem elem_le_foldl_max (f : Nat → Int) :
    ∀ (l : List Nat) (b : Int) (x : Nat), x ∈ l → f x ≤ l.foldl (fun a j => max a (f j)) b := by
  intro l
  induction l with
  | nil => intro b x hx; cases hx
  | cons y t ih =>
    intro b x hx
    rcases List.mem_cons.mp hx with h | h
    · subst h
      exact le_trans (le_max_right b (f x)) (le_foldl_max f t _)
    · exact ih _ x h

theorem foldl_max_attained (f : Nat → Int) :
    ∀ (l : List Nat) (b : Int),
      l.foldl (fun a j => max a (f j)) b = b ∨
        ∃ x ∈ l, l.foldl (fun a j => max a (f j)) b = f x := by
  intro l
  induction l with
  | nil => intro b; exact Or.inl rfl
  | cons y t ih =>
    intro b
    rcases ih (max b (f y)) with h | ⟨x, hx, he⟩
    · rcases max_choice b (f y) with hm | hm
      · exact Or.inl (by rw [List.foldl_cons, h, hm])
      · exact Or.inr ⟨y, List.mem_cons_self y t, by rw [List.foldl_cons, h, hm]⟩
    · exact Or.inr ⟨x, List.mem_cons_of_mem y hx, he⟩

theorem foldl_congr_mem {α : Type} (f g : α → Nat → α) :
    ∀ (l : List Nat) (b : α), (∀ a, ∀ x ∈ l, f a x = g a x) →
      l.foldl f b = l.foldl g b := by
  intro l
  induction l with
  | nil => intro b _; rfl
  | cons y t ih =>
    intro b h
    rw [List.foldl_cons, List.foldl_cons, h b y (List.mem_cons_self y t)]
    exact ih _ fun a x hx => h a x (List.mem_cons_of_mem y hx)

theorem asapInner (p : Nat) :
    ∀ (dl : List Nat) (cur : List Stmt), p < cur.length → (∀ j ∈ dl, j ≠ p) →
      dl.foldl (asapRelax p) cur
        = cur.set p
            { cur.getD p default with
              start_cycle := dl.foldl
                (fun a j => max a ((cur.getD j default).start_cycle
                  + max ((cur.getD j default).op.latency - 1) 0 + 1))
                (cur.getD p default).start_cycle } := by
  intro dl
  induction dl with
  | nil =>
    intro cur hp _
    show cur = cur.set p { cur.getD p default with start_cycle := (cur.getD p default).start_cycle }
    rw [show { cur.getD p default with start_cycle := (cur.getD p default).start_cycle }
        = cur.getD p default from rfl]
    exact (set_getD_self cur hp).symm
  | cons j t ih =>
    intro cur hp hne
    have hjp : j ≠ p := hne j (List.mem_cons_self j t)
    have h1 : asapRelax p cur j = cur.set p
        { cur.getD p default with
          start_cycle := max (cur.getD p default).start_cycle
            ((cur.getD j default).start_cycle
              + max ((cur.getD j default).op.latency - 1) 0 + 1) } := rfl
    have hp2 : p < (asapRelax p cur j).length := by rw [h1]; simpa using hp
    have h2 := ih (asapRelax p cur j) hp2 (fun x hx => hne x (List.mem_cons_of_mem j hx))
    rw [List.foldl_cons]
    rw [h2, h1]
    have h3 : ((cur.set p
        { cur.getD p default with
          start_cycle := max (cur.getD p default).start_cycle
            ((cur.getD j default).start_cycle
              + max ((cur.getD j default).op.latency - 1) 0 + 1) }).getD p default)
        = { cur.getD p default with
            start_cycle := max (cur.getD p default).start_cycle
              ((cur.getD j default).start_cycle
                + max ((cur.getD j default).op.latency - 1) 0 + 1) } :=
      getD_set_self cur _ hp
  
    rw [h3, List.set_set]
    have h5 : ∀ (b : Int), List.foldl (fun a x =>
          max a (((cur.set p
            { cur.getD p default with
              start_cycle := max (cur.getD p default).start_cycle
                ((cur.getD j default).start_cycle
                  + max ((cur.getD j default).op.latency - 1) 0 + 1) }).getD x default).start_cycle
            + max (((cur.set p
            { cur.getD p default with
              start_cycle := max (cur.getD p default).start_cycle
                ((cur.getD j default).start_cycle
                  + max ((cur.getD j default).op.latency - 1) 0 + 1) }).getD x default).op.latency - 1) 0 + 1)) b t
        = List.foldl (fun a x => max a ((cur.getD x default).start_cycle
            + max ((cur.getD x default).op.latency - 1) 0 + 1)) b t := by
      intro b
      apply foldl_congr_mem
      intro a x hx
      rw [getD_set_ne cur _ (Ne.symm (hne x (List.mem_cons_of_mem j hx)))]
    rw [h5]
    rfl


theorem getD_map_reset (stmts : List Stmt) (q : Nat) :
    (stmts.map fun s => { s with start_cycle := 0 }).getD q default
      = { stmts.getD q default with start_cycle := 0 } := by
  rw [List.getD_eq_getElem?_getD, List.getD_eq_getElem?_getD, List.getElem?_map]
  cases stmts[q]? with
  | none => rfl
  | some v => rfl

theorem range_foldl_succ {α : Type} (f : α → Nat → α) (i : α) (m : Nat) :
    (List.range (m + 1)).foldl f i = f ((List.range m).foldl f i) m := by
  rw [List.range_succ, List.foldl_append]
  rfl

theorem asapCharacterized_congr (deps : List (List Nat)) (out out2 : List Stmt) (q : Nat)
    (hq : out2.getD q default = out.getD q default)
    (hj : ∀ j ∈ deps.getD q [], out2.getD j default = out.getD j default) :
    asapCharacterized deps out q → asapCharacterized deps out2 q := by
  rintro ⟨a, b, c⟩
  refine ⟨fun h => by rw [hq]; exact a h, fun j hjm => ?_, fun h => ?_⟩
  · unfold busyEnd
    rw [hq, hj j hjm]
    exact b j hjm
  · obtain ⟨j, hjm, he⟩ := c h
    refine ⟨j, hjm, ?_⟩
    unfold busyEnd
    rw [hq, hj j hjm]
    exact he

theorem asapInv_step (stmts : List Stmt) (deps : List (List Nat)) (m : Nat)
    (hmn : m < stmts.length)
    (htopo : ∀ q ∈ List.range stmts.length, ∀ j ∈ deps.getD q [], j < q)
    (A : List Stmt × Int) (hinv : asapInv stmts deps m A) (ns : Int)
    (hns1 : 1 ≤ ns)
    (hchm : asapCharacterized deps
      (A.1.set m { A.1.getD m default with start_cycle := ns }) m) :
    asapInv stmts deps (m + 1)
      (A.1.set m { A.1.getD m default with start_cycle := ns },
       max A.2 (ns + max ((A.1.getD m default).op.latency - 1) 0)) := by
  obtain ⟨hlen, hhi, hlo, hch, hL0, hLb, hLa⟩ := hinv
  have hp : m < A.1.length := by rw [hlen]; exact hmn
  have hcurm : A.1.getD m default = { stmts.getD m default with start_cycle := 0 } :=
    hhi m (le_refl m)
  have hself : (A.1.set m { A.1.getD m default with start_cycle := ns }).getD m default
      = { A.1.getD m default with start_cycle := ns } :=
    getD_set_self A.1 _ hp
  have hother : ∀ q, q ≠ m →
      (A.1.set m { A.1.getD m default with start_cycle := ns }).getD q default
        = A.1.getD q default :=
    fun q hq => getD_set_ne A.1 _ (fun he => hq he.symm)
  refine ⟨by simpa using hlen, ?_, ?_, ?_, ?_, ?_, ?_⟩
  · intro q hq
    have hqm : q ≠ m := fun he => by omega
    rw [hother q hqm]
    exact hhi q (by omega)
  · intro q hq
    rcases Nat.lt_succ_iff_lt_or_eq.mp hq with h | h
    · have hqm : q ≠ m := Nat.ne_of_lt h
      rw [hother q hqm]
      exact hlo q h
    · subst h
      rw [hself]
      refine ⟨?_, ?_, hns1⟩
      · show (A.1.getD q default).idx = (stmts.getD q default).idx
        rw [hcurm]
      · show (A.1.getD q default).op = (stmts.getD q default).op
        rw [hcurm]
  · intro q hq
    rcases Nat.lt_succ_iff_lt_or_eq.mp hq with h | h
    · have hqm : q ≠ m := Nat.ne_of_lt h
      refine asapCharacterized_congr deps A.1 _ q (hother q hqm) ?_ (hch q h)
      intro j hj
      have hjq : j < q := htopo q (List.mem_range.mpr (by omega)) j hj
      exact hother j (Nat.ne_of_lt (lt_trans hjq h))
    · subst h
      exact hchm
  · exact le_trans hL0 (le_max_left _ _)
  · intro q hq
    rcases Nat.lt_succ_iff_lt_or_eq.mp hq with h | h
    · have hqm : q ≠ m := Nat.ne_of_lt h
      have : busyEnd (A.1.set m { A.1.getD m default with start_cycle := ns }) q
          = busyEnd A.1 q := by
        unfold busyEnd
        rw [hother q hqm]
      rw [this]
      exact le_trans (hLb q h) (le_max_left _ _)
    · subst h
      have : busyEnd (A.1.set q { A.1.getD q default with start_cycle := ns }) q
          = ns + max ((A.1.getD q default).op.latency - 1) 0 := by
        unfold busyEnd
        rw [hself]
      rw [this]
      exact le_max_right _ _
  · rcases max_choice A.2 (ns + max ((A.1.getD m default).op.latency - 1) 0) with hm2 | hm2
    · rcases hLa with h0 | ⟨q, hq, he⟩
      · exact Or.inl (by rw [hm2, h0])
      · refine Or.inr ⟨q, by omega, ?_⟩
        have : busyEnd (A.1.set m { A.1.getD m default with start_cycle := ns }) q
            = busyEnd A.1 q := by
          unfold busyEnd
          rw [hother q (Nat.ne_of_lt hq)]
        rw [hm2, this]
        exact he
    · refine Or.inr ⟨m, by omega, ?_⟩
      have : busyEnd (A.1.set m { A.1.getD m default with start_cycle := ns }) m
          = ns + max ((A.1.getD m default).op.latency - 1) 0 := by
        unfold busyEnd
        rw [hself]
      rw [hm2, this]

theorem asap_prefix_inv (stmts : List Stmt) (deps : List (List Nat))
    (hidx : ∀ q ∈ List.range stmts.length, (stmts.getD q default).idx = q)
    (htopo : ∀ q ∈ List.range stmts.length, ∀ j ∈ deps.getD q [], j < q) :
    ∀ m, m ≤ stmts.length →
      asapInv stmts deps m
        ((List.range m).foldl (asapStep deps)
          (stmts.map fun s => { s with start_cycle := 0 }, 0)) := by
  intro m
  induction m with
  | zero =>
    intro _
    refine ⟨by simp, fun q _ => getD_map_reset stmts q, fun q hq => absurd hq (Nat.not_lt_zero q),
      fun q hq => absurd hq (Nat.not_lt_zero q), le_refl 0,
      fun q hq => absurd hq (Nat.not_lt_zero q), Or.inl rfl⟩
  | succ m ih =>
    intro hm1
    have hmn : m < stmts.length := hm1
    obtain ⟨hlen, hhi, hlo, hch, hL0, hLb, hLa⟩ := ih (le_of_lt hmn)
    set A := (List.range m).foldl (asapStep deps)
      (stmts.map fun s => { s with start_cycle := 0 }, 0) with hA
    rw [range_foldl_succ]
    have hcurm : A.1.getD m default = { stmts.getD m default with start_cycle := 0 } :=
      hhi m (le_refl m)
    have hidxm : (A.1.getD m default).idx = m := by
      rw [hcurm]
      exact hidx m (List.mem_range.mpr hmn)
    have hne : ∀ j ∈ deps.getD m [], j ≠ m :=
      fun j hj => Nat.ne_of_lt (htopo m (List.mem_range.mpr hmn) j hj)
    have hp : m < A.1.length := by rw [hlen]; exact hmn
    have hstart0 : (A.1.getD m default).start_cycle = 0 := by rw [hcurm]
    have hinv : asapInv stmts deps m A := ⟨hlen, hhi, hlo, hch, hL0, hLb, hLa⟩
    have hbody : asapStep deps A m
        = (let c2 := if (deps.getD (A.1.getD m default).idx []).isEmpty then
             A.1.set m { A.1.getD m default with start_cycle := 1 }
           else (deps.getD (A.1.getD m default).idx []).foldl (asapRelax m) A.1
           (c2, max A.2 ((c2.getD m default).start_cycle
             + max ((c2.getD m default).op.latency - 1) 0))) := rfl
    by_cases hdep : deps.getD m [] = []
    · have hstep : asapStep deps A m
          = (A.1.set m { A.1.getD m default with start_cycle := 1 },
             max A.2 (1 + max ((A.1.getD m default).op.latency - 1) 0)) := by
        rw [hbody, hidxm, hdep]
        simp only [List.isEmpty_nil, if_true]
        rw [getD_set_self A.1 _ hp]
      rw [hstep]
      apply asapInv_step stmts deps m hmn htopo A hinv 1 (le_refl 1)
      refine ⟨fun _ => ?_, fun j hj => ?_, fun h => absurd hdep h⟩
      · rw [getD_set_self A.1 _ hp]
      · rw [hdep] at hj
        cases hj
    · have hF := asapInner m (deps.getD m []) A.1 hp hne
      have hstep : asapStep deps A m
          = (A.1.set m { A.1.getD m default with
                         start_cycle := (deps.getD m []).foldl
                           (fun a j => max a ((A.1.getD j default).start_cycle
                             + max ((A.1.getD j default).op.latency - 1) 0 + 1))
                           (A.1.getD m default).start_cycle },
             max A.2 ((deps.getD m []).foldl
                 (fun a j => max a ((A.1.getD j default).start_cycle
                   + max ((A.1.getD j default).op.latency - 1) 0 + 1))
                 (A.1.getD m default).start_cycle
               + max ((A.1.getD m default).op.latency - 1) 0)) := by
        rw [hbody, hidxm]
        have hie : (deps.getD m []).isEmpty = false := by
          cases hde : deps.getD m [] with
          | nil => exact absurd hde hdep
          | cons a t => rfl
        simp only [hie, if_false, Bool.false_eq_true]
        rw [hF, getD_set_self A.1 _ hp]
      rw [hstep]
      obtain ⟨j0, hj0⟩ := List.exists_mem_of_ne_nil _ hdep
      have hj0m : j0 < m := htopo m (List.mem_range.mpr hmn) j0 hj0
      have hstart1 : 1 ≤ (A.1.getD j0 default).start_cycle := (hlo j0 hj0m).2.2
      have hterm : 2 ≤ (A.1.getD j0 default).start_cycle
          + max ((A.1.getD j0 default).op.latency - 1) 0 + 1 := by
        have : (0 : Int) ≤ max ((A.1.getD j0 default).op.latency - 1) 0 := le_max_right _ _
        omega
      have hF2 : 2 ≤ (deps.getD m []).foldl
          (fun a j => max a ((A.1.getD j default).start_cycle
            + max ((A.1.getD j default).op.latency - 1) 0 + 1))
          (A.1.getD m default).start_cycle :=
        le_trans hterm (elem_le_foldl_max _ _ _ j0 hj0)
      apply asapInv_step stmts deps m hmn htopo A hinv _ (le_trans (show (1:Int) ≤ 2 by omega) hF2)
      have hself2 := getD_set_self A.1 { A.1.getD m default with
        start_cycle := (deps.getD m []).foldl
          (fun a j => max a ((A.1.getD j default).start_cycle
            + max ((A.1.getD j default).op.latency - 1) 0 + 1))
          (A.1.getD m default).start_cycle } hp
      have hother2 : ∀ j ∈ deps.getD m [],
          (A.1.set m { A.1.getD m default with
            start_cycle := (deps.getD m []).foldl
              (fun a j => max a ((A.1.getD j default).start_cycle
                + max ((A.1.getD j default).op.latency - 1) 0 + 1))
              (A.1.getD m default).start_cycle }).getD j default = A.1.getD j default :=
        fun j hj => getD_set_ne A.1 _ (Ne.symm (hne j hj))
      refine ⟨fun h => absurd h hdep, fun j hj => ?_, fun _ => ?_⟩
      · unfold busyEnd
        rw [hself2, hother2 j hj]
        exact elem_le_foldl_max _ _ _ j hj
      · rcases foldl_max_attained (fun j => (A.1.getD j default).start_cycle
            + max ((A.1.getD j default).op.latency - 1) 0 + 1) (deps.getD m [])
            (A.1.getD m default).start_cycle with h0 | ⟨j, hj, he⟩
        · have hcon := le_trans hF2 (le_of_eq h0)
          rw [hstart0] at hcon
          exact absurd hcon (by norm_num)
        · refine ⟨j, hj, ?_⟩
          unfold busyEnd
          rw [hself2, hother2 j hj]
          exact he


/-- C8: ASAP pass correctness.  For every DFG whose statements carry their
position as `idx` and whose dependency lists point strictly backwards (the
canonicalizer's contract), `scheduleASAP` sets `start_cycle[q] = 1` when
`deps[q]` is empty and otherwise `start_cycle[q] = max over j in deps[q] of
(start_cycle[j] + max(latency[j] - 1, 0) + 1)`, with the max attained by some
dependency; it returns `L_asap = max over q of (start_cycle[q] +
max(latency[q] - 1, 0))`, attained by some statement.  Since each successor
starts strictly after every predecessor's busy end, no combinational
successor is placed in the same cycle as any predecessor. -/
theorem asap_recurrence (stmts : List Stmt) (deps : List (List Nat))
    (hidx : ∀ q ∈ List.range stmts.length, (stmts.getD q default).idx = q)
    (htopo : ∀ q ∈ List.range stmts.length, ∀ j ∈ deps.getD q [], j < q)
    (hn : stmts ≠ []) :
    (∀ q ∈ List.range stmts.length,
      asapCharacterized deps (scheduleASAP stmts deps).1 q ∧
      ∀ j ∈ deps.getD q [],
        ((scheduleASAP stmts deps).1.getD j default).start_cycle
          < ((scheduleASAP stmts deps).1.getD q default).start_cycle) ∧
    (∀ q ∈ List.range stmts.length,
      busyEnd (scheduleASAP stmts deps).1 q ≤ (scheduleASAP stmts deps).2) ∧
    (∃ q ∈ List.range stmts.length,
      (scheduleASAP stmts deps).2 = busyEnd (scheduleASAP stmts deps).1 q) := by
  have hrw : scheduleASAP stmts deps
      = (List.range stmts.length).foldl (asapStep deps)
          (stmts.map fun s => { s with start_cycle := 0 }, 0) := rfl
  obtain ⟨hlen, hhi, hlo, hch, hL0, hLb, hLa⟩ :=
    asap_prefix_inv stmts deps hidx htopo stmts.length (le_refl _)
  rw [hrw]
  refine ⟨?_, ?_, ?_⟩
  · intro q hq
    have hqn := List.mem_range.mp hq
    refine ⟨hch q hqn, ?_⟩
    intro j hj
    have hb := (hch q hqn).2.1 j hj
    unfold busyEnd at hb
    have : (0 : Int) ≤ max (((((List.range stmts.length).foldl (asapStep deps)
        (stmts.map fun s => { s with start_cycle := 0 }, 0)).1.getD j default).op.latency - 1)) 0 :=
      le_max_right _ _
    omega
  · intro q hq
    exact hLb q (List.mem_range.mp hq)
  · rcases hLa with h0 | ⟨q, hq, he⟩
    · exfalso
      have hn0 : 0 < stmts.length := List.length_pos.mpr hn
      have hb := hLb 0 hn0
      have hs := (hlo 0 hn0).2.2
      unfold busyEnd at hb
      have : (0 : Int) ≤ max (((((List.range stmts.length).foldl (asapStep deps)
          (stmts.map fun s => { s with start_cycle := 0 }, 0)).1.getD 0 default).op.latency - 1)) 0 :=
        le_max_right _ _
      omega
    · exact ⟨q, List.mem_range.mpr hq, he⟩

/-- Witness for `asap_recurrence`: the hypotheses hold for the chain DFG and
the theorem applies to it. -/
theorem asap_recurrence_witness :
    ((∀ q ∈ List.range chainC1.length, (chainC1.getD q default).idx = q) ∧
     (∀ q ∈ List.range chainC1.length, ∀ j ∈ chainDeps.getD q [], j < q) ∧
     chainC1 ≠ []) ∧
    ((∀ q ∈ List.range chainC1.length,
      asapCharacterized chainDeps (scheduleASAP chainC1 chainDeps).1 q ∧
      ∀ j ∈ chainDeps.getD q [],
        ((scheduleASAP chainC1 chainDeps).1.getD j default).start_cycle
          < ((scheduleASAP chainC1 chainDeps).1.getD q default).start_cycle) ∧
    (∀ q ∈ List.range chainC1.length,
      busyEnd (scheduleASAP chainC1 chainDeps).1 q ≤ (scheduleASAP chainC1 chainDeps).2) ∧
    (∃ q ∈ List.range chainC1.length,
      (scheduleASAP chainC1 chainDeps).2 = busyEnd (scheduleASAP chainC1 chainDeps).1 q)) :=
  ⟨⟨by decide, by decide, by decide⟩,
   asap_recurrence chainC1 chainDeps (by decide) (by decide) (by decide)⟩

/-- C1: on the three-statement combinational chain `A → B → C` (all
`latency=0, delay=0.3, limit=-1`) the claim expects all three statements in
cycle 1 with latency 1 at `T=1.0`, and `A, B` in cycle 1 with `C` in cycle 2
(latency 2) at `T=0.5`.  The code instead schedules the chain at cycles
`[1, 2, 3]` with latency 3 for both clock periods: a consumer is promoted to
the ready queue only after the cycle in which its producer was scheduled, so
statements of a combinational chain land in consecutive cycles. -/
theorem chain_schedules_one_per_cycle :
    schedule chainC1 1 8 = Except.ok (some (chainC1out, 3)) ∧
    schedule chainC1 ⟨1, 2⟩ 8 = Except.ok (some (chainC1out, 3)) ∧
    chainC1out.map Stmt.start_cycle = [1, 2, 3] := by
  refine ⟨?_, ?_, rfl⟩
  · have d1 : drain 1 chainUses chainPriKeys 1 7 chainC1 [0] Ledger.empty []
        = some ⟨chainMidA, [], chainLedA, [0]⟩ := rfl
    have d2 : drain 1 chainUses chainPriKeys 2 6 chainMidA [1] chainLedA []
        = some ⟨chainMidB, [], chainLedB, [1]⟩ := rfl
    have d3 : drain 1 chainUses chainPriKeys 3 5 chainMidB [2] chainLedB []
        = some ⟨chainC1out, [], chainLedB, [2]⟩ := rfl
    have s1 : listLoop 3 1 chainDeps chainUses chainPriKeys (7 + 1)
          ⟨chainC1, ∅, [1, 2], [0], Ledger.empty, 1⟩
        = listLoop 3 1 chainDeps chainUses chainPriKeys 7
          ⟨chainMidA, insert 0 ∅, [2], [1], chainLedA, 2⟩ := by
      rw [listLoop_succ, d1]; rfl
    have s2 : listLoop 3 1 chainDeps chainUses chainPriKeys (6 + 1)
          ⟨chainMidA, insert 0 ∅, [2], [1], chainLedA, 2⟩
        = listLoop 3 1 chainDeps chainUses chainPriKeys 6
          ⟨chainMidB, insert 1 (insert 0 ∅), [], [2], chainLedB, 3⟩ := by
      rw [listLoop_succ, d2]; rfl
    have s3 : listLoop 3 1 chainDeps chainUses chainPriKeys (5 + 1)
          ⟨chainMidB, insert 1 (insert 0 ∅), [], [2], chainLedB, 3⟩
        = listLoop 3 1 chainDeps chainUses chainPriKeys 5
          ⟨chainC1out, insert 2 (insert 1 (insert 0 ∅)), [], [], chainLedB, 4⟩ := by
      rw [listLoop_succ, d3]; rfl
    have s4 : listLoop 3 1 chainDeps chainUses chainPriKeys (4 + 1)
          ⟨chainC1out, insert 2 (insert 1 (insert 0 ∅)), [], [], chainLedB, 4⟩
        = some chainC1out := by
      rw [listLoop_succ]; rfl
    have run := s1.trans (s2.trans (s3.trans s4))
    have h0 : schedule chainC1 1 8
        = Except.ok (scheduleByList chainPri chainDeps chainUses 1 8) := rfl
    have h1 : scheduleByList chainPri chainDeps chainUses 1 8
        = wrapResult (listLoop 3 1 chainDeps chainUses chainPriKeys (7 + 1)
            ⟨chainC1, ∅, [1, 2], [0], Ledger.empty, 1⟩) := rfl
    rw [h0, h1, run]
    rfl
  · have d1 : drain ⟨1, 2⟩ chainUses chainPriKeys 1 7 chainC1 [0] Ledger.empty []
        = some ⟨chainMidA, [], chainLedA, [0]⟩ := rfl
    have d2 : drain ⟨1, 2⟩ chainUses chainPriKeys 2 6 chainMidA [1] chainLedA []
        = some ⟨chainMidB, [], chainLedB, [1]⟩ := rfl
    have d3 : drain ⟨1, 2⟩ chainUses chainPriKeys 3 5 chainMidB [2] chainLedB []
        = some ⟨chainC1out, [], chainLedB, [2]⟩ := rfl
    have s1 : listLoop 3 ⟨1, 2⟩ chainDeps chainUses chainPriKeys (7 + 1)
          ⟨chainC1, ∅, [1, 2], [0], Ledger.empty, 1⟩
        = listLoop 3 ⟨1, 2⟩ chainDeps chainUses chainPriKeys 7
          ⟨chainMidA, insert 0 ∅, [2], [1], chainLedA, 2⟩ := by
      rw [listLoop_succ, d1]; rfl
    have s2 : listLoop 3 ⟨1, 2⟩ chainDeps chainUses chainPriKeys (6 + 1)
          ⟨chainMidA, insert 0 ∅, [2], [1], chainLedA, 2⟩
        = listLoop 3 ⟨1, 2⟩ chainDeps chainUses chainPriKeys 6
          ⟨chainMidB, insert 1 (insert 0 ∅), [], [2], chainLedB, 3⟩ := by
      rw [listLoop_succ, d2]; rfl
    have s3 : listLoop 3 ⟨1, 2⟩ chainDeps chainUses chainPriKeys (5 + 1)
          ⟨chainMidB, insert 1 (insert 0 ∅), [], [2], chainLedB, 3⟩
        = listLoop 3 ⟨1, 2⟩ chainDeps chainUses chainPriKeys 5
          ⟨chainC1out, insert 2 (insert 1 (insert 0 ∅)), [], [], chainLedB, 4⟩ := by
      rw [listLoop_succ, d3]; rfl
    have s4 : listLoop 3 ⟨1, 2⟩ chainDeps chainUses chainPriKeys (4 + 1)
          ⟨chainC1out, insert 2 (insert 1 (insert 0 ∅)), [], [], chainLedB, 4⟩
        = some chainC1out := by
      rw [listLoop_succ]; rfl
    have run := s1.trans (s2.trans (s3.trans s4))
    have h0 : schedule chainC1 ⟨1, 2⟩ 8
        = Except.ok (scheduleByList chainPri chainDeps chainUses ⟨1, 2⟩ 8) := rfl
    have h1 : scheduleByList chainPri chainDeps chainUses ⟨1, 2⟩ 8
        = wrapResult (listLoop 3 ⟨1, 2⟩ chainDeps chainUses chainPriKeys (7 + 1)
            ⟨chainC1, ∅, [1, 2], [0], Ledger.empty, 1⟩) := rfl
    rw [h0, h1, run]
    rfl

/-- C3 counterexample: on `alapCex` (edge `A → B`, both latency 1, plus an
independent latency-10 sink `C`), ASAP returns deadline 10 and the ALAP pass
then produces start cycles `[1, 2, -7]`: the minimum start cycle over all
statements is `-7`, not `1`, because `earliestCycle` is only updated for
statements that have successors. -/
theorem alap_min_start_not_one :
    ((scheduleALAP (scheduleASAP alapCex (get_deps_and_uses alapCex).1).2
        (scheduleASAP alapCex (get_deps_and_uses alapCex).1).1
        (get_deps_and_uses alapCex).2).1.map Stmt.start_cycle = [1, 2, -7]) ∧
    ((-7 : Int) < 1) :=
  ⟨rfl, by decide⟩

theorem foldl_min_le (f : Nat → Int) :
    ∀ (l : List Nat) (b : Int), l.foldl (fun a k => min a (f k)) b ≤ b
  | [], _ => le_refl _
  | x :: t, b => le_trans (foldl_min_le f t _) (min_le_left b (f x))

theorem getD_map_shift (l : List Stmt) (c : Int) (q : Nat) (hq : q < l.length) :
    (l.map fun s => { s with start_cycle := s.start_cycle - c }).getD q default
      = { l.getD q default with
          start_cycle := (l.getD q default).start_cycle - c } := by
  rw [List.getD_eq_getElem?_getD, List.getD_eq_getElem?_getD, List.getElem?_map,
    List.getElem?_eq_getElem hq]
  rfl

theorem alapGo (L : Int) (uses : List (List Nat)) :
    ∀ (ps : List Nat) (cur : List Stmt) (e : Int),
      (∀ p ∈ ps, p < cur.length) →
      (∀ p ∈ ps, (cur.getD p default).idx = p) →
      ps.Nodup →
      (ps.foldl (alapStep L uses) (cur, e)).2 ≤ e ∧
      (∀ q, q ∉ ps →
        (ps.foldl (alapStep L uses) (cur, e)).1.getD q default = cur.getD q default) ∧
      (∀ p ∈ ps, uses.getD p [] ≠ [] →
        (ps.foldl (alapStep L uses) (cur, e)).2
            ≤ ((ps.foldl (alapStep L uses) (cur, e)).1.getD p default).start_cycle ∧
          ((ps.foldl (alapStep L uses) (cur, e)).1.getD p default).start_cycle ≤ L) ∧
      ((ps.foldl (alapStep L uses) (cur, e)).2 = e ∨
        ∃ p ∈ ps, uses.getD p [] ≠ [] ∧
          ((ps.foldl (alapStep L uses) (cur, e)).1.getD p default).start_cycle
            = (ps.foldl (alapStep L uses) (cur, e)).2) ∧
      (ps.foldl (alapStep L uses) (cur, e)).1.length = cur.length := by
  intro ps
  induction ps with
  | nil =>
    intro cur e _ _ _
    exact ⟨le_refl e, fun q _ => rfl, fun p hp => absurd hp (List.not_mem_nil p),
      Or.inl rfl, rfl⟩
  | cons p rest ih =>
    intro cur e hlt hidxc hnd
    have hploc : p < cur.length := hlt p (List.mem_cons_self p rest)
    have hpidx : (cur.getD p default).idx = p := hidxc p (List.mem_cons_self p rest)
    have hpnr : p ∉ rest := (List.nodup_cons.mp hnd).1
    have hndr : rest.Nodup := (List.nodup_cons.mp hnd).2
    rw [List.foldl_cons]
    by_cases hs : uses.getD p [] = []
    · -- sink: start set to L - max(latency-1,0); e unchanged
      have hstep : alapStep L uses (cur, e) p
          = (cur.set p { cur.getD p default with
               start_cycle := L - max ((cur.getD p default).op.latency - 1) 0 }, e) := by
        simp only [alapStep]
        rw [hpidx, hs]
        simp
      rw [hstep]
      have hidx2 : ∀ q ∈ rest,
          ((cur.set p { cur.getD p default with
            start_cycle := L - max ((cur.getD p default).op.latency - 1) 0 }).getD q default).idx = q := by
        intro q hq
        rw [getD_set_ne cur _ (fun he => hpnr (by rw [he]; exact hq))]
        exact hidxc q (List.mem_cons_of_mem p hq)
      obtain ⟨h1, h2, h3, h4, h5⟩ := ih (cur.set p { cur.getD p default with
        start_cycle := L - max ((cur.getD p default).op.latency - 1) 0 }) e
        (by intro q hq; simpa using hlt q (List.mem_cons_of_mem p hq)) hidx2 hndr
      refine ⟨h1, ?_, ?_, ?_, by simpa using h5⟩
      · intro q hq
        have hqp : q ≠ p := fun he => hq (he ▸ List.mem_cons_self p rest)
        have hqr : q ∉ rest := fun hh => hq (List.mem_cons_of_mem p hh)
        rw [h2 q hqr, getD_set_ne cur _ (Ne.symm hqp)]
      · intro q hq hqn
        rcases List.mem_cons.mp hq with he | hr
        · exact absurd hqn (by rw [he]; exact fun hc => hc hs)
        · exact h3 q hr hqn
      · rcases h4 with he | ⟨q, hq, hqn, hqe⟩
        · exact Or.inl he
        · exact Or.inr ⟨q, List.mem_cons_of_mem p hq, hqn, hqe⟩
    · -- non-sink
      have hstep : alapStep L uses (cur, e) p
          = (cur.set p { cur.getD p default with
               start_cycle := (uses.getD p []).foldl
                 (fun b k => min b ((cur.getD k default).start_cycle
                   - max (cur.getD p default).op.latency 1)) L },
             min e ((uses.getD p []).foldl
                 (fun b k => min b ((cur.getD k default).start_cycle
                   - max (cur.getD p default).op.latency 1)) L)) := by
        simp only [alapStep]
        rw [hpidx]
        have hie : (uses.getD p []).isEmpty = false := by
          cases hde : uses.getD p [] with
          | nil => exact absurd hde hs
          | cons a t => rfl
        simp only [hie, if_false, Bool.false_eq_true]
      rw [hstep]
      have hls : (uses.getD p []).foldl
          (fun b k => min b ((cur.getD k default).start_cycle
            - max (cur.getD p default).op.latency 1)) L ≤ L :=
        foldl_min_le _ _ _
      have hidx2 : ∀ q ∈ rest,
          ((cur.set p { cur.getD p default with
            start_cycle := (uses.getD p []).foldl
              (fun b k => min b ((cur.getD k default).start_cycle
                - max (cur.getD p default).op.latency 1)) L }).getD q default).idx = q := by
        intro q hq
        rw [getD_set_ne cur _ (fun he => hpnr (by rw [he]; exact hq))]
        exact hidxc q (List.mem_cons_of_mem p hq)
      obtain ⟨h1, h2, h3, h4, h5⟩ := ih (cur.set p { cur.getD p default with
          start_cycle := (uses.getD p []).foldl
            (fun b k => min b ((cur.getD k default).start_cycle
              - max (cur.getD p default).op.latency 1)) L })
        (min e ((uses.getD p []).foldl
            (fun b k => min b ((cur.getD k default).start_cycle
              - max (cur.getD p default).op.latency 1)) L))
        (by intro q hq; simpa using hlt q (List.mem_cons_of_mem p hq)) hidx2 hndr
      have hpv : (rest.foldl (alapStep L uses) (cur.set p { cur.getD p default with
            start_cycle := (uses.getD p []).foldl
              (fun b k => min b ((cur.getD k default).start_cycle
                - max (cur.getD p default).op.latency 1)) L },
          min e ((uses.getD p []).foldl
              (fun b k => min b ((cur.getD k default).start_cycle
                - max (cur.getD p default).op.latency 1)) L))).1.getD p default
          = { cur.getD p default with
              start_cycle := (uses.getD p []).foldl
                (fun b k => min b ((cur.getD k default).start_cycle
                  - max (cur.getD p default).op.latency 1)) L } := by
        rw [h2 p hpnr]
        exact getD_set_self cur _ hploc
      refine ⟨le_trans h1 (min_le_left _ _), ?_, ?_, ?_, by simpa using h5⟩
      · intro q hq
        have hqp : q ≠ p := fun he => hq (he ▸ List.mem_cons_self p rest)
        have hqr : q ∉ rest := fun hh => hq (List.mem_cons_of_mem p hh)
        rw [h2 q hqr, getD_set_ne cur _ (Ne.symm hqp)]
      · intro q hq hqn
        rcases List.mem_cons.mp hq with he | hr
        · subst he
          constructor
          · rw [hpv]
            exact le_trans h1 (min_le_right _ _)
          · rw [hpv]
            exact hls
        · exact h3 q hr hqn
      · rcases h4 with he | ⟨q, hq, hqn, hqe⟩
        · rcases min_choice e ((uses.getD p []).foldl
              (fun b k => min b ((cur.getD k default).start_cycle
                - max (cur.getD p default).op.latency 1)) L) with hm | hm
          · exact Or.inl (by rw [he, hm])
          · refine Or.inr ⟨p, List.mem_cons_self p rest, hs, ?_⟩
            rw [hpv, he, hm]
        · exact Or.inr ⟨q, List.mem_cons_of_mem p hq, hqn, hqe⟩


/-- C3 (amended): after the ALAP pass every statement that has at least one
successor ends with `start_cycle ≥ 1`, and when such a statement exists the
minimum of their start cycles is exactly `1`; statements without successors
are not tracked by the shift and may end below `1`. -/
theorem alap_nonsink_min_is_one (asapLatency : Int) (stmts : List Stmt)
    (uses : List (List Nat))
    (hidx : ∀ q ∈ List.range stmts.length, (stmts.getD q default).idx = q) :
    (∀ p ∈ List.range stmts.length, uses.getD p [] ≠ [] →
      1 ≤ ((scheduleALAP asapLatency stmts uses).1.getD p default).start_cycle) ∧
    ((∃ p ∈ List.range stmts.length, uses.getD p [] ≠ []) →
      ∃ p ∈ List.range stmts.length, uses.getD p [] ≠ [] ∧
        ((scheduleALAP asapLatency stmts uses).1.getD p default).start_cycle = 1) := by
  have hrw : (scheduleALAP asapLatency stmts uses).1
      = ((List.range stmts.length).reverse.foldl (alapStep asapLatency uses)
          (stmts.map fun s => { s with start_cycle := 0 }, asapLatency)).1.map
        (fun s => { s with start_cycle := s.start_cycle
          - (((List.range stmts.length).reverse.foldl (alapStep asapLatency uses)
              (stmts.map fun s => { s with start_cycle := 0 }, asapLatency)).2 - 1) }) := rfl
  obtain ⟨h1, h2, h3, h4, h5⟩ := alapGo asapLatency uses (List.range stmts.length).reverse
    (stmts.map fun s => { s with start_cycle := 0 }) asapLatency
    (by
      intro p hp
      rw [List.length_map]
      exact List.mem_range.mp (List.mem_reverse.mp hp))
    (by
      intro p hp
      rw [getD_map_reset]
      exact hidx p (List.mem_reverse.mp hp))
    (List.nodup_reverse.mpr (List.nodup_range _))
  have hplen : ∀ p ∈ List.range stmts.length,
      p < ((List.range stmts.length).reverse.foldl (alapStep asapLatency uses)
        (stmts.map fun s => { s with start_cycle := 0 }, asapLatency)).1.length := by
    intro p hp
    rw [h5, List.length_map]
    exact List.mem_range.mp hp
  constructor
  · intro p hp hpn
    have hps : p ∈ (List.range stmts.length).reverse := List.mem_reverse.mpr hp
    obtain ⟨hle, _⟩ := h3 p hps hpn
    rw [hrw, getD_map_shift _ _ p (hplen p hp)]
    show 1 ≤ _ - _
    omega
  · rintro ⟨p0, hp0, hn0⟩
    rcases h4 with he | ⟨q, hq, hqn, hqe⟩
    · have hps : p0 ∈ (List.range stmts.length).reverse := List.mem_reverse.mpr hp0
      obtain ⟨hle, hge⟩ := h3 p0 hps hn0
      refine ⟨p0, hp0, hn0, ?_⟩
      rw [hrw, getD_map_shift _ _ p0 (hplen p0 hp0)]
      show _ - _ = 1
      rw [he] at hle
      omega
    · have hqr : q ∈ List.range stmts.length := List.mem_reverse.mp hq
      refine ⟨q, hqr, hqn, ?_⟩
      rw [hrw, getD_map_shift _ _ q (hplen q hqr)]
      show _ - _ = 1
      omega

theorem alap_nonsink_min_is_one_witness :
    (∀ q ∈ List.range alapCex.length, (alapCex.getD q default).idx = q) ∧
    ((∃ p ∈ List.range alapCex.length, (get_deps_and_uses alapCex).2.getD p [] ≠ []) →
      ∃ p ∈ List.range alapCex.length, (get_deps_and_uses alapCex).2.getD p [] ≠ [] ∧
        ((scheduleALAP 10 alapCex (get_deps_and_uses alapCex).2).1.getD p
          default).start_cycle = 1) :=
  ⟨by decide, (alap_nonsink_min_is_one 10 alapCex (get_deps_and_uses alapCex).2
    (by decide)).2⟩

/-- C7: `reorderToTopological` on `swapPair` (edge from the statement at
position 1 to the one at position 0) physically reorders the statements but
rebuilds the dependency lists through `reorderedStatements[dep]->idx`, which
indexes the *new* arrangement and is therefore the identity map: the rebuilt
`deps` is `[[], [1]]`, so statement 1 "depends on itself" (`1 ∈ deps[1]` and
`¬ 1 < 1`), violating the claimed postcondition `j < i`. -/
theorem reorder_leaves_stale_dep_indices :
    reorderToTopological swapPair (get_deps_and_uses swapPair).1
        (get_deps_and_uses swapPair).2 =
      Except.ok ([⟨0, unitOp, 0, 1, []⟩, ⟨1, unitOp, 0, 0, [1]⟩], [[], [1]], [[0], []]) ∧
    (1 ∈ ([[], [1]] : List (List Nat)).getD 1 [] ∧ ¬ (1 < 1)) :=
  ⟨rfl, by decide⟩

/-- C10: invoking `schedule` twice on the same DFG does not produce identical
results.  On `idemCex` the first invocation returns latency 4 with starts
`[1, 1, 1, 4]`; because the canonicalizer left stale indices in the adjacency
caches (see `reorder_leaves_stale_dep_indices`), the second invocation — whose
freshly recomputed dependency index reflects the reordered statements — returns
latency 3 with starts `[1, 1, 1, 2]`. -/
theorem schedule_twice_differs :
    schedule idemCex 1 8 = Except.ok (some (idemCexRun1, 4)) ∧
    schedule idemCexRun1 1 8 = Except.ok (some (idemCexRun2, 3)) ∧
    idemCexRun1.map Stmt.start_cycle = [1, 1, 1, 4] ∧
    idemCexRun2.map Stmt.start_cycle = [1, 1, 1, 2] ∧
    ((4 : Int) ≠ 3) := by
  refine ⟨?_, ?_, rfl, rfl, by decide⟩
  · have d1 : drain 1 idemUses1 idemPri1 1 7 idemZero [0, 1, 2] Ledger.empty []
        = some ⟨idemMid, [], idemLedA, [1, 2, 0]⟩ := rfl
    have d2 : drain 1 idemUses1 idemPri1 2 6 idemMid [] idemLedA []
        = some ⟨idemMid, [], idemLedA, []⟩ := rfl
    have d3 : drain 1 idemUses1 idemPri1 3 5 idemMid [] idemLedA []
        = some ⟨idemMid, [], idemLedA, []⟩ := rfl
    have d4 : drain 1 idemUses1 idemPri1 4 4 idemMid [3] idemLedA []
        = some ⟨idemCexRun1, [], idemLedA, [3]⟩ := rfl
    have s1 : listLoop 4 1 idemDeps1 idemUses1 idemPri1 (7 + 1)
          ⟨idemZero, ∅, [3], [0, 1, 2], Ledger.empty, 1⟩
        = listLoop 4 1 idemDeps1 idemUses1 idemPri1 7
          ⟨idemMid, insert 0 (insert 2 (insert 1 ∅)), [3], [], idemLedA, 2⟩ := by
      rw [listLoop_succ, d1]; rfl
    have s2 : listLoop 4 1 idemDeps1 idemUses1 idemPri1 (6 + 1)
          ⟨idemMid, insert 0 (insert 2 (insert 1 ∅)), [3], [], idemLedA, 2⟩
        = listLoop 4 1 idemDeps1 idemUses1 idemPri1 6
          ⟨idemMid, insert 0 (insert 2 (insert 1 ∅)), [3], [], idemLedA, 3⟩ := by
      rw [listLoop_succ, d2]; rfl
    have s3 : listLoop 4 1 idemDeps1 idemUses1 idemPri1 (5 + 1)
          ⟨idemMid, insert 0 (insert 2 (insert 1 ∅)), [3], [], idemLedA, 3⟩
        = listLoop 4 1 idemDeps1 idemUses1 idemPri1 5
          ⟨idemMid, insert 0 (insert 2 (insert 1 ∅)), [], [3], idemLedA, 4⟩ := by
      rw [listLoop_succ, d3]; rfl
    have s4 : listLoop 4 1 idemDeps1 idemUses1 idemPri1 (4 + 1)
          ⟨idemMid, insert 0 (insert 2 (insert 1 ∅)), [], [3], idemLedA, 4⟩
        = listLoop 4 1 idemDeps1 idemUses1 idemPri1 4
          ⟨idemCexRun1, insert 3 (insert 0 (insert 2 (insert 1 ∅))), [], [], idemLedA, 5⟩ := by
      rw [listLoop_succ, d4]; rfl
    have s5 : listLoop 4 1 idemDeps1 idemUses1 idemPri1 (3 + 1)
          ⟨idemCexRun1, insert 3 (insert 0 (insert 2 (insert 1 ∅))), [], [], idemLedA, 5⟩
        = some idemCexRun1 := by
      rw [listLoop_succ]; rfl
    have run := s1.trans (s2.trans (s3.trans (s4.trans s5)))
    have h0 : schedule idemCex 1 8
        = Except.ok (scheduleByList idemAlap1 idemDeps1 idemUses1 1 8) := rfl
    have h1 : scheduleByList idemAlap1 idemDeps1 idemUses1 1 8
        = wrapResult (listLoop 4 1 idemDeps1 idemUses1 idemPri1 (7 + 1)
            ⟨idemZero, ∅, [3], [0, 1, 2], Ledger.empty, 1⟩) := rfl
    rw [h0, h1, run]
    rfl
  · have d1 : drain 1 idemUses2 idemPri2 1 7 idemZero [0, 1, 2] Ledger.empty []
        = some ⟨idemMid, [], idemLedB, [2, 1, 0]⟩ := rfl
    have d2 : drain 1 idemUses2 idemPri2 2 6 idemMid [3] idemLedB []
        = some ⟨idemCexRun2, [], idemLedB, [3]⟩ := rfl
    have s1 : listLoop 4 1 idemDeps2 idemUses2 idemPri2 (7 + 1)
          ⟨idemZero, ∅, [3], [0, 1, 2], Ledger.empty, 1⟩
        = listLoop 4 1 idemDeps2 idemUses2 idemPri2 7
          ⟨idemMid, insert 0 (insert 1 (insert 2 ∅)), [], [3], idemLedB, 2⟩ := by
      rw [listLoop_succ, d1]; rfl
    have s2 : listLoop 4 1 idemDeps2 idemUses2 idemPri2 (6 + 1)
          ⟨idemMid, insert 0 (insert 1 (insert 2 ∅)), [], [3], idemLedB, 2⟩
        = listLoop 4 1 idemDeps2 idemUses2 idemPri2 6
          ⟨idemCexRun2, insert 3 (insert 0 (insert 1 (insert 2 ∅))), [], [], idemLedB, 3⟩ := by
      rw [listLoop_succ, d2]; rfl
    have s3 : listLoop 4 1 idemDeps2 idemUses2 idemPri2 (5 + 1)
          ⟨idemCexRun2, insert 3 (insert 0 (insert 1 (insert 2 ∅))), [], [], idemLedB, 3⟩
        = some idemCexRun2 := by
      rw [listLoop_succ]; rfl
    have run := s1.trans (s2.trans s3)
    have h0 : schedule idemCexRun1 1 8
        = Except.ok (scheduleByList idemAlap2 idemDeps2 idemUses2 1 8) := rfl
    have h1 : scheduleByList idemAlap2 idemDeps2 idemUses2 1 8
        = wrapResult (listLoop 4 1 idemDeps2 idemUses2 idemPri2 (7 + 1)
            ⟨idemZero, ∅, [3], [0, 1, 2], Ledger.empty, 1⟩) := rfl
    rw [h0, h1, run]
    rfl

/-- One drain pass over `stuckPair`: the `limit = 0` statement fails the
resource check, is pushed back, and the drain breaks with nothing scheduled. -/
theorem drain_stuckPair (c : Int) (f : Nat) :
    drain 1 stuckUses stuckPri c (f + 1) stuckPair [0] Ledger.empty [] =
      some ⟨stuckPair, [0], Ledger.empty, []⟩ :=
  rfl

/-- The outer loop on `stuckPair` makes no progress at any cycle and never
terminates: it returns `none` for every fuel. -/
theorem listLoop_stuckPair :
    ∀ (f : Nat) (c : Int),
      listLoop 2 1 stuckDeps stuckUses stuckPri f
        ⟨stuckPair, ∅, [1], [0], Ledger.empty, c⟩ = none
  | 0, _ => rfl
  | 1, _ => rfl
  | f + 2, c => by
    have e : listLoop 2 1 stuckDeps stuckUses stuckPri (f + 2)
          ⟨stuckPair, ∅, [1], [0], Ledger.empty, c⟩
        = listLoop 2 1 stuckDeps stuckUses stuckPri (f + 1)
          ⟨stuckPair, ∅, [1], [0], Ledger.empty, c + 1⟩ := rfl
    rw [e]
    exact listLoop_stuckPair (f + 1) (c + 1)

/-- C4: the scheduler has no `SchedulerStuck` guard.  On `stuckPair` — a
`limit = 0` statement with a dependent consumer, so `not_ready` stays
non-empty and no progress is ever made — the per-cycle loop simply keeps
advancing `current_cycle` forever: `schedule` yields no result at any fuel,
and never an error. -/
theorem schedule_stuck_runs_forever :
    ∀ fuel : Nat, schedule stuckPair 1 fuel = Except.ok none := by
  intro fuel
  have e : schedule stuckPair 1 fuel = Except.ok
      (wrapResult (listLoop 2 1 stuckDeps stuckUses stuckPri fuel
          ⟨stuckPair, ∅, [1], [0], Ledger.empty, 1⟩)) := rfl
  rw [e, listLoop_stuckPair fuel 1]
  rfl

/-- The drain loop on a single over-budget combinational statement pops it,
fails the delay check, pushes it back, and immediately pops it again: `none`
at every fuel. -/
theorem drain_oneBigDelay :
    ∀ (f : Nat) (c : Int),
      drain 1 oneUses onePri c f oneBigDelay [0] Ledger.empty [] = none
  | 0, _ => rfl
  | f + 1, c => by
    have e : drain 1 oneUses onePri c (f + 1) oneBigDelay [0] Ledger.empty [] =
        drain 1 oneUses onePri c f oneBigDelay [0] Ledger.empty [] := rfl
    rw [e]
    exact drain_oneBigDelay f c

/-- The same spin for a zero-delay statement against clock period `-1`. -/
theorem drain_oneZeroDelay :
    ∀ (f : Nat) (c : Int),
      drain ⟨-1, 1⟩ oneUses onePri c f oneZeroDelay [0] Ledger.empty [] = none
  | 0, _ => rfl
  | f + 1, c => by
    have e : drain ⟨-1, 1⟩ oneUses onePri c (f + 1) oneZeroDelay [0] Ledger.empty [] =
        drain ⟨-1, 1⟩ oneUses onePri c f oneZeroDelay [0] Ledger.empty [] := rfl
    rw [e]
    exact drain_oneZeroDelay f c

/-- Outer loop wrapper for `drain_oneBigDelay`. -/
theorem listLoop_oneBigDelay (f : Nat) :
    listLoop 1 1 oneDeps oneUses onePri f
      ⟨oneBigDelay, ∅, [], [0], Ledger.empty, 1⟩ = none := by
  cases f with
  | zero => rfl
  | succ f2 =>
    have hd := drain_oneBigDelay f2 1
    simp only [listLoop]
    rw [hd]
    rfl

/-- Outer loop wrapper for `drain_oneZeroDelay`. -/
theorem listLoop_oneZeroDelay (f : Nat) :
    listLoop 1 ⟨-1, 1⟩ oneDeps oneUses onePri f
      ⟨oneZeroDelay, ∅, [], [0], Ledger.empty, 1⟩ = none := by
  cases f with
  | zero => rfl
  | succ f2 =>
    have hd := drain_oneZeroDelay f2 1
    simp only [listLoop]
    rw [hd]
    rfl

/-- C9: `schedule` performs no configuration validation.  With a statement
whose `op.delay = 2` exceeds `clock_period = 1`, and likewise with
`clock_period = -1 ≤ 0`, no `InvalidConfig` error is produced: the call
reaches the list scheduler, whose drain loop re-pops the over-budget
statement forever (`Except.ok none` at every fuel, never an error). -/
theorem schedule_no_invalid_config_error :
    (∀ fuel : Nat, schedule oneBigDelay 1 fuel = Except.ok none) ∧
    (∀ fuel : Nat, schedule oneZeroDelay ⟨-1, 1⟩ fuel = Except.ok none) := by
  constructor
  · intro fuel
    have e : schedule oneBigDelay 1 fuel = Except.ok
        (wrapResult (listLoop 1 1 oneDeps oneUses onePri fuel
            ⟨oneBigDelay, ∅, [], [0], Ledger.empty, 1⟩)) := rfl
    rw [e, listLoop_oneBigDelay fuel]
    rfl
  · intro fuel
    have e : schedule oneZeroDelay ⟨-1, 1⟩ fuel = Except.ok
        (wrapResult (listLoop 1 ⟨-1, 1⟩ oneDeps oneUses onePri fuel
            ⟨oneZeroDelay, ∅, [], [0], Ledger.empty, 1⟩)) := rfl
    rw [e, listLoop_oneZeroDelay fuel]
    rfl

theorem time_add_zero_ble (d T : Time) : (d.add Time.zero).ble T = d.ble T := by
  simp [Time.add, Time.zero, Time.ble]

theorem ledger_write_ne (led : Ledger) (c : Int) (k : Nat) (v : Time) (c2 : Int)
    (k2 : Nat) (h : ¬ (c2 = c ∧ k2 = k)) : led.write c k v c2 k2 = led c2 k2 := by
  simp only [Ledger.write, if_neg h]

theorem foldl_pick_mem (p : Nat → Nat → Bool) :
    ∀ (t : List Nat) (b : Nat),
      t.foldl (fun b x => if p x b then x else b) b = b ∨
        t.foldl (fun b x => if p x b then x else b) b ∈ t
  | [], _ => Or.inl rfl
  | x :: t, b => by
    have h := foldl_pick_mem p t (if p x b then x else b)
    rcases h with h | h
    · rw [List.foldl_cons, h]
      by_cases hx : p x b
      · rw [if_pos hx]
        exact Or.inr (List.mem_cons_self x t)
      · rw [if_neg hx]
        exact Or.inl rfl
    · exact Or.inr (List.mem_cons_of_mem x h)

theorem popTop_none (pri : List Int) (ss : List Stmt) (q : List Nat) :
    popTop pri ss q = none → q = [] := by
  cases q with
  | nil => intro; rfl
  | cons h t => intro hc; exact absurd hc (by simp [popTop])

theorem popTop_sound (pri : List Int) (ss : List Stmt) (q : List Nat) (i : Nat)
    (q2 : List Nat) (h : popTop pri ss q = some (i, q2)) :
    i ∈ q ∧ q2 = q.erase i := by
  cases q with
  | nil => exact absurd h (by simp [popTop])
  | cons a t =>
    simp only [popTop, Option.some.injEq, Prod.mk.injEq] at h
    obtain ⟨hi, hq⟩ := h
    subst hi
    refine ⟨?_, hq.symm⟩
    rcases foldl_pick_mem (fun x b => popsBefore pri ss x b) t a with h | h
    · rw [h]; exact List.mem_cons_self a t
    · exact List.mem_cons_of_mem a h

theorem countP_set_of (p : Stmt → Bool) :
    ∀ (l : List Stmt) (i : Nat) (v : Stmt), i < l.length →
      p (l.getD i default) = false →
      (l.set i v).countP p = l.countP p + (if p v then 1 else 0)
  | [], i, v, h, _ => absurd h (by simp)
  | a :: t, 0, v, _, hp => by
    simp only [List.getD_cons_zero] at hp
    simp [List.countP_cons, hp, Nat.add_comm]
  | a :: t, i + 1, v, h, hp => by
    simp only [List.getD_cons_succ] at hp
    have ih := countP_set_of p t i v (by simpa using h) hp
    simp [List.countP_cons, ih, Nat.add_assoc, Nat.add_comm (if p v then 1 else 0)]

theorem mem_set_self (l : List Stmt) (i : Nat) (v : Stmt) (h : i < l.length) :
    v ∈ l.set i v := by
  have hlen : i < (l.set i v).length := by simpa using h
  have h2 : (l.set i v).getD i default = v := getD_set_self l v h
  have h3 : (l.set i v).getD i default ∈ l.set i v := by
    rw [List.getD_eq_getElem _ _ hlen]
    exact List.getElem_mem hlen
  rwa [h2] at h3

theorem mem_foldl_insert (l : List Nat) :
    ∀ (s : Finset Nat) (a : Nat),
      (a ∈ l.foldl (fun s i => insert i s) s) ↔ a ∈ l ∨ a ∈ s := by
  induction l with
  | nil => intro s a; simp
  | cons x t ih =>
    intro s a
    rw [List.foldl_cons, ih]
    simp only [List.mem_cons, Finset.mem_insert]
    tauto

theorem ledger_foldl_frame (F : Ledger → Nat → Ledger) (key : Nat → Int × Nat)
    (hF : ∀ l k c j, ¬ (c = (key k).1 ∧ j = (key k).2) → F l k c j = l c j) :
    ∀ (L : List Nat) (led : Ledger) (c : Int) (j : Nat),
      (∀ k ∈ L, ¬ (c = (key k).1 ∧ j = (key k).2)) →
      L.foldl F led c j = led c j := by
  intro L
  induction L with
  | nil => intro led c j _; rfl
  | cons x t ih =>
    intro led c j hk
    rw [List.foldl_cons, ih (F led x) c j fun k hkt => hk k (List.mem_cons_of_mem x hkt)]
    exact hF led x c j (hk x (List.mem_cons_self x t))

theorem ledger_foldl_key (F : Ledger → Nat → Ledger) (key : Nat → Int × Nat)
    (hF : ∀ l k c j, ¬ (c = (key k).1 ∧ j = (key k).2) → F l k c j = l c j)
    (L : List Nat) (led : Ledger) (c : Int) (j : Nat)
    (h : L.foldl F led c j ≠ led c j) :
    ∃ k ∈ L, c = (key k).1 ∧ j = (key k).2 := by
  by_contra hc
  push_neg at hc
  exact h (ledger_foldl_frame F key hF L led c j fun k hk => by
    intro hkey
    exact hc k hk hkey.1 hkey.2)

theorem drain_pop_none (T : Time) (uses : List (List Nat)) (pri : List Int)
    (cur : Int) (fuel : Nat) (ss : List Stmt) (q : List Nat) (led : Ledger)
    (sched : List Nat) (h : popTop pri ss q = none) :
    drain T uses pri cur (fuel + 1) ss q led sched = some ⟨ss, [], led, sched⟩ := by
  simp only [drain, h]

theorem drain_comb_ok (T : Time) (uses : List (List Nat)) (pri : List Int)
    (cur : Int) (fuel : Nat) (ss : List Stmt) (q : List Nat) (led : Ledger)
    (sched : List Nat) (i : Nat) (q2 : List Nat)
    (h : popTop pri ss q = some (i, q2))
    (hlim : (ss.getD i default).op.limit < 0)
    (hdel : (((ss.getD i default).op.delay.add (led cur i)).ble T) = true) :
    drain T uses pri cur (fuel + 1) ss q led sched =
      drain T uses pri cur fuel
        (ss.set i { ss.getD i default with start_cycle := cur }) q2
        ((uses.getD i []).foldl
          (fun (l : Ledger) k =>
            let succ := (ss.set i { ss.getD i default with start_cycle := cur }).getD k default
            l.write cur succ.idx
              ((l cur succ.idx).tmax ((l cur i).add (ss.getD i default).op.delay)))
          led)
        (sched ++ [i]) := by
  simp only [drain, h, hlim, if_pos, hdel, if_true]

theorem drain_comb_push (T : Time) (uses : List (List Nat)) (pri : List Int)
    (cur : Int) (fuel : Nat) (ss : List Stmt) (q : List Nat) (led : Ledger)
    (sched : List Nat) (i : Nat) (q2 : List Nat)
    (h : popTop pri ss q = some (i, q2))
    (hlim : (ss.getD i default).op.limit < 0)
    (hdel : (((ss.getD i default).op.delay.add (led cur i)).ble T) = false) :
    drain T uses pri cur (fuel + 1) ss q led sched =
      drain T uses pri cur fuel ss (q2 ++ [i]) led sched := by
  simp only [drain, h, hlim, if_pos, hdel, Bool.false_eq_true, if_false]

theorem drain_phys_ok (T : Time) (uses : List (List Nat)) (pri : List Int)
    (cur : Int) (fuel : Nat) (ss : List Stmt) (q : List Nat) (led : Ledger)
    (sched : List Nat) (i : Nat) (q2 : List Nat)
    (h : popTop pri ss q = some (i, q2))
    (hlim : ¬ (ss.getD i default).op.limit < 0)
    (hres : calculateResourceUsage ss cur (ss.getD i default).op
      < (ss.getD i default).op.limit) :
    drain T uses pri cur (fuel + 1) ss q led sched =
      drain T uses pri cur fuel
        (ss.set i { ss.getD i default with start_cycle := cur }) q2
        ((uses.getD i []).foldl
          (fun (l : Ledger) k =>
            let succ := (ss.set i { ss.getD i default with start_cycle := cur }).getD k default
            if succ.op.limit < 0 then
              l.write (cur + (ss.getD i default).op.latency - 1) succ.idx
                ((l (cur + (ss.getD i default).op.latency - 1) succ.idx).tmax
                  (ss.getD i default).op.delay)
            else l)
          led)
        (sched ++ [i]) := by
  simp only [drain, h, hlim, if_false, hres, if_pos]

theorem drain_phys_break (T : Time) (uses : List (List Nat)) (pri : List Int)
    (cur : Int) (fuel : Nat) (ss : List Stmt) (q : List Nat) (led : Ledger)
    (sched : List Nat) (i : Nat) (q2 : List Nat)
    (h : popTop pri ss q = some (i, q2))
    (hlim : ¬ (ss.getD i default).op.limit < 0)
    (hres : ¬ calculateResourceUsage ss cur (ss.getD i default).op
      < (ss.getD i default).op.limit) :
    drain T uses pri cur (fuel + 1) ss q led sched =
      some ⟨ss, q2 ++ [i], led, sched⟩ := by
  simp only [drain, h, hlim, if_false, hres]

theorem drainSpec_pop_none (T : Time) (uses : List (List Nat)) (pri : List Int)
    (cur : Int) (fuel : Nat) (ss : List Stmt) (q : List Nat) (sched : List Nat)
    (h : popTop pri ss q = none) :
    drainSpec T uses pri cur (fuel + 1) ss q sched = some (ss, [], sched) := by
  simp only [drainSpec, h]

theorem drainSpec_comb_ok (T : Time) (uses : List (List Nat)) (pri : List Int)
    (cur : Int) (fuel : Nat) (ss : List Stmt) (q : List Nat) (sched : List Nat)
    (i : Nat) (q2 : List Nat) (h : popTop pri ss q = some (i, q2))
    (hlim : (ss.getD i default).op.limit < 0)
    (hdel : ((ss.getD i default).op.delay.ble T) = true) :
    drainSpec T uses pri cur (fuel + 1) ss q sched =
      drainSpec T uses pri cur fuel
        (ss.set i { ss.getD i default with start_cycle := cur }) q2 (sched ++ [i]) := by
  simp only [drainSpec, h, hlim, if_pos, hdel, if_true]

theorem drainSpec_comb_push (T : Time) (uses : List (List Nat)) (pri : List Int)
    (cur : Int) (fuel : Nat) (ss : List Stmt) (q : List Nat) (sched : List Nat)
    (i : Nat) (q2 : List Nat) (h : popTop pri ss q = some (i, q2))
    (hlim : (ss.getD i default).op.limit < 0)
    (hdel : ((ss.getD i default).op.delay.ble T) = false) :
    drainSpec T uses pri cur (fuel + 1) ss q sched =
      drainSpec T uses pri cur fuel ss (q2 ++ [i]) sched := by
  simp only [drainSpec, h, hlim, if_pos, hdel, Bool.false_eq_true, if_false]

theorem drainSpec_phys_ok (T : Time) (uses : List (List Nat)) (pri : List Int)
    (cur : Int) (fuel : Nat) (ss : List Stmt) (q : List Nat) (sched : List Nat)
    (i : Nat) (q2 : List Nat) (h : popTop pri ss q = some (i, q2))
    (hlim : ¬ (ss.getD i default).op.limit < 0)
    (hres : calculateResourceUsage ss cur (ss.getD i default).op
      < (ss.getD i default).op.limit) :
    drainSpec T uses pri cur (fuel + 1) ss q sched =
      drainSpec T uses pri cur fuel
        (ss.set i { ss.getD i default with start_cycle := cur }) q2 (sched ++ [i]) := by
  simp only [drainSpec, h, hlim, if_false, hres, if_pos]

theorem drainSpec_phys_break (T : Time) (uses : List (List Nat)) (pri : List Int)
    (cur : Int) (fuel : Nat) (ss : List Stmt) (q : List Nat) (sched : List Nat)
    (i : Nat) (q2 : List Nat) (h : popTop pri ss q = some (i, q2))
    (hlim : ¬ (ss.getD i default).op.limit < 0)
    (hres : ¬ calculateResourceUsage ss cur (ss.getD i default).op
      < (ss.getD i default).op.limit) :
    drainSpec T uses pri cur (fuel + 1) ss q sched =
      some (ss, q2 ++ [i], sched) := by
  simp only [drainSpec, h, hlim, if_false, hres]

theorem sched_step_SInv (base ss : List Stmt) (cur : Int) (hcur : 1 ≤ cur) (i : Nat)
    (hin : i < base.length) (hS : SInv base cur ss) :
    SInv base cur (ss.set i { ss.getD i default with start_cycle := cur }) := by
  obtain ⟨hlen, hframe, helem⟩ := hS
  have hilen : i < ss.length := by rw [hlen]; exact hin
  refine ⟨by rw [List.length_set]; exact hlen, ?_, ?_⟩
  · intro j hj
    by_cases hji : i = j
    · subst hji
      rw [getD_set_self ss _ hilen, hframe i hj]
    · rw [getD_set_ne ss _ hji]
      exact hframe j hj
  · intro s2 hs2 hne
    rcases List.mem_or_eq_of_mem_set hs2 with hmem | heq
    · exact helem s2 hmem hne
    · subst heq
      exact ⟨hcur, le_refl cur⟩

theorem sched_step_QInv (deps : List (List Nat)) (C : Finset Nat) (cur : Int) (n : Nat)
    (ss : List Stmt) (q2 : List Nat) (i : Nat)
    (hi0 : (ss.getD i default).start_cycle = 0) (hiq2 : i ∉ q2)
    (hC : ∀ d ∈ C, (ss.getD d default).start_cycle ≠ 0)
    (hQ : QInv deps C cur n ss q2) :
    QInv deps C cur n (ss.set i { ss.getD i default with start_cycle := cur }) q2 := by
  intro j hj
  obtain ⟨hjn, hj0, hjd⟩ := hQ j hj
  have hji : i ≠ j := fun he => hiq2 (he ▸ hj)
  refine ⟨hjn, by rw [getD_set_ne ss _ hji]; exact hj0, fun d hd => ?_⟩
  obtain ⟨hdC, hdt⟩ := hjd d hd
  have hdi : i ≠ d := fun he => hC d hdC (by rw [← he]; exact hi0)
  exact ⟨hdC, by rw [getD_set_ne ss _ hdi]; exact hdt⟩

theorem sched_step_GInv (deps : List (List Nat)) (C : Finset Nat) (cur : Int) (n : Nat)
    (ss : List Stmt) (i : Nat) (hin : i < n) (hilen : i < ss.length)
    (hi0 : (ss.getD i default).start_cycle = 0)
    (hC : ∀ d ∈ C, (ss.getD d default).start_cycle ≠ 0)
    (hidep : ∀ d ∈ deps.getD i [], d ∈ C ∧
      (ss.getD d default).start_cycle + max (ss.getD d default).op.latency 1 ≤ cur)
    (hG : GInv deps n ss) :
    GInv deps n (ss.set i { ss.getD i default with start_cycle := cur }) := by
  intro j hjn hjne d hd
  by_cases hji : j = i
  · subst hji
    obtain ⟨hdC, hdt⟩ := hidep d hd
    have hdi : j ≠ d := fun he => hC d hdC (by rw [← he]; exact hi0)
    refine ⟨by rw [getD_set_ne ss _ hdi]; exact hC d hdC, ?_⟩
    rw [getD_set_ne ss _ hdi, getD_set_self ss _ hilen]
    exact hdt
  · have hjne2 : (ss.getD j default).start_cycle ≠ 0 := by
      rw [getD_set_ne ss _ (fun he => hji he.symm)] at hjne
      exact hjne
    obtain ⟨hd0, hdle⟩ := hG j hjn hjne2 d hd
    have hdi : i ≠ d := fun he => hd0 (by rw [← he]; exact hi0)
    refine ⟨by rw [getD_set_ne ss _ hdi]; exact hd0, ?_⟩
    rw [getD_set_ne ss _ hdi, getD_set_ne ss _ (fun he => hji he.symm)]
    exact hdle

theorem sched_step_HC (C : Finset Nat) (ss : List Stmt) (cur : Int) (i : Nat)
    (hi0 : (ss.getD i default).start_cycle = 0)
    (hC : ∀ d ∈ C, (ss.getD d default).start_cycle ≠ 0) :
    ∀ d ∈ C, ((ss.set i { ss.getD i default with start_cycle := cur }).getD d
      default).start_cycle ≠ 0 := by
  intro d hd
  have hdi : i ≠ d := fun he => hC d hd (by rw [← he]; exact hi0)
  rw [getD_set_ne ss _ hdi]
  exact hC d hd

theorem countP_set_false (p : Stmt → Bool) (l : List Stmt) (i : Nat) (v : Stmt)
    (hi : i < l.length) (h0 : p (l.getD i default) = false) (hv : p v = false) :
    (l.set i v).countP p = l.countP p := by
  rw [countP_set_of p l i v hi h0, hv]
  simp

theorem countP_set_true (p : Stmt → Bool) (l : List Stmt) (i : Nat) (v : Stmt)
    (hi : i < l.length) (h0 : p (l.getD i default) = false) (hv : p v = true) :
    (l.set i v).countP p = l.countP p + 1 := by
  rw [countP_set_of p l i v hi h0, hv]
  simp

theorem sched_step_RInv_comb (base ss : List Stmt) (cur : Int) (i : Nat)
    (hin : i < base.length) (hS : SInv base cur ss)
    (hi0 : (ss.getD i default).start_cycle = 0)
    (hlim : (ss.getD i default).op.limit < 0) (hR : RInv base ss) :
    RInv base (ss.set i { ss.getD i default with start_cycle := cur }) := by
  intro op hop hdet c
  have hilen : i < ss.length := by rw [hS.1]; exact hin
  have hopi : (ss.getD i default).op = (base.getD i default).op := by
    rw [hS.2.1 i hin]
  by_cases hname : (ss.getD i default).op.name = op.name
  · exfalso
    have h1 : (base.getD i default).op = op := hdet i hin (by rw [← hopi]; exact hname)
    rw [← h1, ← hopi] at hop
    omega
  · rw [countP_set_false _ ss i _ hilen
      (by apply decide_eq_false; intro hP; exact hP.1 hi0)
      (by apply decide_eq_false; intro hP; exact hname hP.2.1)]
    exact hR op hop hdet c

theorem sched_step_RInv_phys (base ss : List Stmt) (cur : Int) (i : Nat)
    (hcur : 1 ≤ cur) (hin : i < base.length) (hS : SInv base cur ss)
    (hi0 : (ss.getD i default).start_cycle = 0)
    (hres : calculateResourceUsage ss cur (ss.getD i default).op
      < (ss.getD i default).op.limit)
    (hlim : ¬ (ss.getD i default).op.limit < 0) (hR : RInv base ss) :
    RInv base (ss.set i { ss.getD i default with start_cycle := cur }) := by
  intro op hop hdet c
  have hilen : i < ss.length := by rw [hS.1]; exact hin
  have hopi : (ss.getD i default).op = (base.getD i default).op := by
    rw [hS.2.1 i hin]
  by_cases hname : (ss.getD i default).op.name = op.name
  · have hope : (ss.getD i default).op = op := by
      rw [hopi]
      exact hdet i hin (by rw [← hopi]; exact hname)
    have hcnt : ((ss.countP fun s2 => s2.start_cycle ≠ 0 ∧
        s2.op.name = (ss.getD i default).op.name ∧ s2.start_cycle ≤ cur ∧
        cur < s2.start_cycle + s2.op.latency : Nat) : Int)
        < (ss.getD i default).op.limit := by
      have h2 := hres
      unfold calculateResourceUsage at h2
      rw [if_neg hlim] at h2
      exact h2
    rw [hope] at hcnt
    by_cases hcv : cur ≤ c ∧ c < cur + (ss.getD i default).op.latency
    · rw [countP_set_true _ ss i _ hilen
        (by apply decide_eq_false; intro hP; exact hP.1 hi0)
        (by
          apply decide_eq_true
          exact ⟨(show cur ≠ 0 by omega), hname, hcv.1, hcv.2⟩)]
      have hmono : (ss.countP fun s2 => s2.start_cycle ≠ 0 ∧ s2.op.name = op.name ∧
          s2.start_cycle ≤ c ∧ c < s2.start_cycle + s2.op.latency : Nat)
          ≤ (ss.countP fun s2 => s2.start_cycle ≠ 0 ∧ s2.op.name = op.name ∧
            s2.start_cycle ≤ cur ∧ cur < s2.start_cycle + s2.op.latency : Nat) := by
        apply List.countP_mono_left
        intro a ha hpa
        simp only [decide_eq_true_eq] at hpa ⊢
        obtain ⟨h1, h2, h3, h4⟩ := hpa
        obtain ⟨_, hle⟩ := hS.2.2 a ha h1
        exact ⟨h1, h2, hle, by omega⟩
      omega
    · rw [countP_set_false _ ss i _ hilen
        (by apply decide_eq_false; intro hP; exact hP.1 hi0)
        (by
          apply decide_eq_false
          intro hP
          exact hcv ⟨hP.2.2.1, hP.2.2.2⟩)]
      exact hR op hop hdet c
  · rw [countP_set_false _ ss i _ hilen
      (by apply decide_eq_false; intro hP; exact hP.1 hi0)
      (by apply decide_eq_false; intro hP; exact hname hP.2.1)]
    exact hR op hop hdet c

theorem sched_step_Led_comb (base : List Stmt) (deps uses : List (List Nat))
    (cur : Int) (hcur : 1 ≤ cur) (ss : List Stmt) (led : Ledger) (i : Nat)
    (hin : i < base.length) (hilen : i < ss.length)
    (hi0 : (ss.getD i default).start_cycle = 0)
    (hS : SInv base cur ss) (hW : WFAdj base deps uses)
    (hL : LedInv uses base.length ss led) :
    LedInv uses base.length
      (ss.set i { ss.getD i default with start_cycle := cur })
      ((uses.getD i []).foldl
        (fun (l : Ledger) k =>
          let succ := (ss.set i { ss.getD i default with start_cycle := cur }).getD k default
          l.write cur succ.idx
            ((l cur succ.idx).tmax ((l cur i).add (ss.getD i default).op.delay)))
        led) := by
  intro c j hcj
  by_cases hch :
      ((uses.getD i []).foldl
        (fun (l : Ledger) k =>
          let succ := (ss.set i { ss.getD i default with start_cycle := cur }).getD k default
          l.write cur succ.idx
            ((l cur succ.idx).tmax ((l cur i).add (ss.getD i default).op.delay)))
        led) c j = led c j
  · rw [hch] at hcj
    obtain ⟨p, hpn, hpu, hp0, hplt⟩ := hL c j hcj
    have hpi : i ≠ p := fun he => hp0 (by rw [← he]; exact hi0)
    refine ⟨p, hpn, hpu, ?_, ?_⟩
    · rw [getD_set_ne ss _ hpi]; exact hp0
    · rw [getD_set_ne ss _ hpi]; exact hplt
  · obtain ⟨k, hk, hck, hjk⟩ := ledger_foldl_key _
      (fun k => (cur,
        ((ss.set i { ss.getD i default with start_cycle := cur }).getD k default).idx))
      (fun l k2 c2 j2 hne => ledger_write_ne l cur _ _ c2 j2 hne)
      (uses.getD i []) led c j hch
    obtain ⟨hkn, _⟩ := hW.2 i hin k hk
    have hidxk :
        ((ss.set i { ss.getD i default with start_cycle := cur }).getD k default).idx
          = k := by
      rw [(sched_step_SInv base ss cur hcur i hin hS).2.1 k hkn]
      exact hW.1 k hkn
    have hck2 : c = cur := hck
    have hjk2 : j =
        ((ss.set i { ss.getD i default with start_cycle := cur }).getD k default).idx :=
      hjk
    rw [hidxk] at hjk2
    subst hjk2
    refine ⟨i, hin, hk, ?_, ?_⟩
    · rw [getD_set_self ss _ hilen]
      show cur ≠ 0
      omega
    · rw [hck2, getD_set_self ss _ hilen]
      show cur < cur + max (ss.getD i default).op.latency 1
      have := le_max_right (ss.getD i default).op.latency 1
      omega

theorem sched_step_Led_phys (base : List Stmt) (deps uses : List (List Nat))
    (cur : Int) (hcur : 1 ≤ cur) (ss : List Stmt) (led : Ledger) (i : Nat)
    (hin : i < base.length) (hilen : i < ss.length)
    (hi0 : (ss.getD i default).start_cycle = 0)
    (hS : SInv base cur ss) (hW : WFAdj base deps uses)
    (hL : LedInv uses base.length ss led) :
    LedInv uses base.length
      (ss.set i { ss.getD i default with start_cycle := cur })
      ((uses.getD i []).foldl
        (fun (l : Ledger) k =>
          let succ := (ss.set i { ss.getD i default with start_cycle := cur }).getD k default
          if succ.op.limit < 0 then
            l.write (cur + (ss.getD i default).op.latency - 1) succ.idx
              ((l (cur + (ss.getD i default).op.latency - 1) succ.idx).tmax
                (ss.getD i default).op.delay)
          else l)
        led) := by
  intro c j hcj
  by_cases hch :
      ((uses.getD i []).foldl
        (fun (l : Ledger) k =>
          let succ := (ss.set i { ss.getD i default with start_cycle := cur }).getD k default
          if succ.op.limit < 0 then
            l.write (cur + (ss.getD i default).op.latency - 1) succ.idx
              ((l (cur + (ss.getD i default).op.latency - 1) succ.idx).tmax
                (ss.getD i default).op.delay)
          else l)
        led) c j = led c j
  · rw [hch] at hcj
    obtain ⟨p, hpn, hpu, hp0, hplt⟩ := hL c j hcj
    have hpi : i ≠ p := fun he => hp0 (by rw [← he]; exact hi0)
    refine ⟨p, hpn, hpu, ?_, ?_⟩
    · rw [getD_set_ne ss _ hpi]; exact hp0
    · rw [getD_set_ne ss _ hpi]; exact hplt
  · obtain ⟨k, hk, hck, hjk⟩ := ledger_foldl_key _
      (fun k => (cur + (ss.getD i default).op.latency - 1,
        ((ss.set i { ss.getD i default with start_cycle := cur }).getD k default).idx))
      (fun l k2 c2 j2 hne => by
        show (if ((ss.set i { ss.getD i default with start_cycle := cur }).getD k2
              default).op.limit < 0 then
            Ledger.write l (cur + (ss.getD i default).op.latency - 1)
              ((ss.set i { ss.getD i default with start_cycle := cur }).getD k2
                default).idx
              ((l (cur + (ss.getD i default).op.latency - 1)
                  ((ss.set i { ss.getD i default with start_cycle := cur }).getD k2
                    default).idx).tmax (ss.getD i default).op.delay)
          else l) c2 j2 = l c2 j2
        by_cases hsl : ((ss.set i { ss.getD i default with start_cycle := cur }).getD k2
            default).op.limit < 0
        · rw [if_pos hsl]
          exact ledger_write_ne l _ _ _ c2 j2 hne
        · rw [if_neg hsl])
      (uses.getD i []) led c j hch
    obtain ⟨hkn, _⟩ := hW.2 i hin k hk
    have hidxk :
        ((ss.set i { ss.getD i default with start_cycle := cur }).getD k default).idx
          = k := by
      rw [(sched_step_SInv base ss cur hcur i hin hS).2.1 k hkn]
      exact hW.1 k hkn
    have hck2 : c = cur + (ss.getD i default).op.latency - 1 := hck
    have hjk2 : j =
        ((ss.set i { ss.getD i default with start_cycle := cur }).getD k default).idx :=
      hjk
    rw [hidxk] at hjk2
    subst hjk2
    refine ⟨i, hin, hk, ?_, ?_⟩
    · rw [getD_set_self ss _ hilen]
      show cur ≠ 0
      omega
    · rw [hck2, getD_set_self ss _ hilen]
      show cur + (ss.getD i default).op.latency - 1
        < cur + max (ss.getD i default).op.latency 1
      have h1 := le_max_left (ss.getD i default).op.latency 1
      have h2 := le_max_right (ss.getD i default).op.latency 1
      omega

theorem drain_master (T : Time) (base : List Stmt) (deps uses : List (List Nat))
    (pri : List Int) (C : Finset Nat) (cur : Int) (hcur : 1 ≤ cur) :
    ∀ (fuel : Nat) (ss : List Stmt) (q : List Nat) (led : Ledger) (sched : List Nat),
      SInv base cur ss → QInv deps C cur base.length ss q →
      GInv deps base.length ss → RInv base ss → q.Nodup →
      (∀ d ∈ C, (ss.getD d default).start_cycle ≠ 0) →
      (∀ j ∈ sched, j < base.length ∧ (ss.getD j default).start_cycle ≠ 0) →
      ((WFAdj base deps uses → LedInv uses base.length ss led →
          (drain T uses pri cur fuel ss q led sched).map projDrain
            = drainSpec T uses pri cur fuel ss q sched) ∧
        ∀ r, drain T uses pri cur fuel ss q led sched = some r →
          SInv base cur r.stmts ∧
          QInv deps C cur base.length r.stmts r.queue ∧
          GInv deps base.length r.stmts ∧
          RInv base r.stmts ∧
          r.queue.Nodup ∧
          (∀ j ∈ r.queue, j ∈ q) ∧
          (∀ k, k ∉ q → r.stmts.getD k default = ss.getD k default) ∧
          (∀ d ∈ C, (r.stmts.getD d default).start_cycle ≠ 0) ∧
          (∀ j ∈ r.sched, j < base.length ∧ (r.stmts.getD j default).start_cycle ≠ 0) ∧
          (WFAdj base deps uses → LedInv uses base.length ss led →
            LedInv uses base.length r.stmts r.led)) := by
  intro fuel
  induction fuel with
  | zero =>
    intro ss q led sched _ _ _ _ _ _ _
    refine ⟨fun _ _ => rfl, fun r hr => ?_⟩
    simp [drain] at hr
  | succ fuel ih =>
    intro ss q led sched hS hQ hG hR hnd hC hsch
    cases hpop : popTop pri ss q with
    | none =>
      refine ⟨?_, ?_⟩
      · intro hW hL
        rw [drain_pop_none T uses pri cur fuel ss q led sched hpop,
            drainSpec_pop_none T uses pri cur fuel ss q sched hpop]
        rfl
      · intro r hr
        rw [drain_pop_none T uses pri cur fuel ss q led sched hpop] at hr
        have hrr := Option.some.inj hr
        subst hrr
        exact ⟨hS, fun j hj => absurd hj (List.not_mem_nil j), hG, hR,
          List.nodup_nil, fun j hj => absurd hj (List.not_mem_nil j),
          fun k _ => rfl, hC, hsch, fun _ hL => hL⟩
    | some p =>
      obtain ⟨i, q2⟩ := p
      obtain ⟨hiq, hq2⟩ := popTop_sound pri ss q i q2 hpop
      obtain ⟨hin, hi0, hidep⟩ := hQ i hiq
      have hilen : i < ss.length := by rw [hS.1]; exact hin
      subst hq2
      have hq2sub : ∀ j ∈ q.erase i, j ∈ q := fun j hj => List.mem_of_mem_erase hj
      have hq2nd : (q.erase i).Nodup := hnd.erase i
      have hiq2 : i ∉ q.erase i := fun hmem => ((hnd.mem_erase_iff).mp hmem).1 rfl
      have hQ3 : QInv deps C cur base.length ss (q.erase i ++ [i]) := by
        intro j hj
        rcases List.mem_append.mp hj with hj | hj
        · exact hQ j (hq2sub j hj)
        · have hj2 : j = i := by simpa using hj
          subst hj2
          exact ⟨hin, hi0, hidep⟩
      have hnd3 : (q.erase i ++ [i]).Nodup :=
        hq2nd.append (List.nodup_singleton i)
          (List.disjoint_left.mpr fun a ha hai => by
            have ha2 : a = i := by simpa using hai
            exact hiq2 (ha2 ▸ ha))
      have hsub3 : ∀ j ∈ q.erase i ++ [i], j ∈ q := by
        intro j hj
        rcases List.mem_append.mp hj with hj | hj
        · exact hq2sub j hj
        · have hj2 : j = i := by simpa using hj
          exact hj2 ▸ hiq
      have hnot3 : ∀ k, k ∉ q → k ∉ q.erase i ++ [i] := by
        intro k hk hmem
        exact hk (hsub3 k hmem)
      have hS2 := sched_step_SInv base ss cur hcur i hin hS
      have hQ2 := sched_step_QInv deps C cur base.length ss (q.erase i) i hi0 hiq2 hC
        (fun j hj => hQ j (hq2sub j hj))
      have hG2 := sched_step_GInv deps C cur base.length ss i hin hilen hi0 hC hidep hG
      have hC2 := sched_step_HC C ss cur i hi0 hC
      have hsch2 : ∀ j ∈ sched ++ [i], j < base.length ∧
          ((ss.set i { ss.getD i default with start_cycle := cur }).getD j
            default).start_cycle ≠ 0 := by
        intro j hj
        rcases List.mem_append.mp hj with hj | hj
        · obtain ⟨hjn, hjne⟩ := hsch j hj
          have hij : i ≠ j := fun he => hjne (he ▸ hi0)
          exact ⟨hjn, by rw [getD_set_ne ss _ hij]; exact hjne⟩
        · have hj2 : j = i := by simpa using hj
          subst hj2
          refine ⟨hin, ?_⟩
          rw [getD_set_self ss _ hilen]
          show cur ≠ 0
          omega
      by_cases hlim : (ss.getD i default).op.limit < 0
      · cases hdel : (((ss.getD i default).op.delay.add (led cur i)).ble T) with
        | true =>
          have hR2 := sched_step_RInv_comb base ss cur i hin hS hi0 hlim hR
          obtain ⟨ih1, ih2⟩ := ih (ss.set i { ss.getD i default with start_cycle := cur })
            (q.erase i)
            ((uses.getD i []).foldl
              (fun (l : Ledger) k =>
                let succ := (ss.set i { ss.getD i default with start_cycle := cur }).getD
                  k default
                l.write cur succ.idx
                  ((l cur succ.idx).tmax ((l cur i).add (ss.getD i default).op.delay)))
              led)
            (sched ++ [i]) hS2 hQ2 hG2 hR2 hq2nd hC2 hsch2
          refine ⟨?_, ?_⟩
          · intro hW hL
            have hz : led cur i = Time.zero := by
              by_contra hzc
              obtain ⟨p2, hpn, hpu, hp0, hplt⟩ := hL cur i hzc
              obtain ⟨hdC, hdt⟩ := hidep p2 (hW.2 p2 hpn i hpu).2
              omega
            have hdel2 : (((ss.getD i default).op.delay).ble T) = true := by
              rw [← time_add_zero_ble (ss.getD i default).op.delay T, ← hz]
              exact hdel
            rw [drain_comb_ok T uses pri cur fuel ss q led sched i (q.erase i) hpop hlim
                hdel,
              drainSpec_comb_ok T uses pri cur fuel ss q sched i (q.erase i) hpop hlim
                hdel2]
            exact ih1 hW
              (sched_step_Led_comb base deps uses cur hcur ss led i hin hilen hi0 hS hW hL)
          · intro r hr
            rw [drain_comb_ok T uses pri cur fuel ss q led sched i (q.erase i) hpop hlim
              hdel] at hr
            obtain ⟨hA, hB, hCc, hD, hE, hF2, hG3, hH, hI, hJ⟩ := ih2 r hr
            refine ⟨hA, hB, hCc, hD, hE, ?_, ?_, hH, hI, ?_⟩
            · intro j hj
              exact hq2sub j (hF2 j hj)
            · intro k hk
              have hknot : k ∉ q.erase i := fun hmem => hk (hq2sub k hmem)
              have hki : i ≠ k := fun he => hk (he ▸ hiq)
              rw [hG3 k hknot, getD_set_ne ss _ hki]
            · intro hW hL
              exact hJ hW
                (sched_step_Led_comb base deps uses cur hcur ss led i hin hilen hi0 hS hW hL)
        | false =>
          obtain ⟨ih1, ih2⟩ := ih ss (q.erase i ++ [i]) led sched hS hQ3 hG hR hnd3 hC hsch
          refine ⟨?_, ?_⟩
          · intro hW hL
            have hz : led cur i = Time.zero := by
              by_contra hzc
              obtain ⟨p2, hpn, hpu, hp0, hplt⟩ := hL cur i hzc
              obtain ⟨hdC, hdt⟩ := hidep p2 (hW.2 p2 hpn i hpu).2
              omega
            have hdel2 : (((ss.getD i default).op.delay).ble T) = false := by
              rw [← time_add_zero_ble (ss.getD i default).op.delay T, ← hz]
              exact hdel
            rw [drain_comb_push T uses pri cur fuel ss q led sched i (q.erase i) hpop hlim
                hdel,
              drainSpec_comb_push T uses pri cur fuel ss q sched i (q.erase i) hpop hlim
                hdel2]
            exact ih1 hW hL
          · intro r hr
            rw [drain_comb_push T uses pri cur fuel ss q led sched i (q.erase i) hpop hlim
              hdel] at hr
            obtain ⟨hA, hB, hCc, hD, hE, hF2, hG3, hH, hI, hJ⟩ := ih2 r hr
            refine ⟨hA, hB, hCc, hD, hE, ?_, ?_, hH, hI, hJ⟩
            · intro j hj
              exact hsub3 j (hF2 j hj)
            · intro k hk
              exact hG3 k (hnot3 k hk)
      · by_cases hres : calculateResourceUsage ss cur (ss.getD i default).op
            < (ss.getD i default).op.limit
        · have hR2 := sched_step_RInv_phys base ss cur i hcur hin hS hi0 hres hlim hR
          obtain ⟨ih1, ih2⟩ := ih (ss.set i { ss.getD i default with start_cycle := cur })
            (q.erase i)
            ((uses.getD i []).foldl
              (fun (l : Ledger) k =>
                let succ := (ss.set i { ss.getD i default with start_cycle := cur }).getD
                  k default
                if succ.op.limit < 0 then
                  l.write (cur + (ss.getD i default).op.latency - 1) succ.idx
                    ((l (cur + (ss.getD i default).op.latency - 1) succ.idx).tmax
                      (ss.getD i default).op.delay)
                else l)
              led)
            (sched ++ [i]) hS2 hQ2 hG2 hR2 hq2nd hC2 hsch2
          refine ⟨?_, ?_⟩
          · intro hW hL
            rw [drain_phys_ok T uses pri cur fuel ss q led sched i (q.erase i) hpop hlim
                hres,
              drainSpec_phys_ok T uses pri cur fuel ss q sched i (q.erase i) hpop hlim
                hres]
            exact ih1 hW
              (sched_step_Led_phys base deps uses cur hcur ss led i hin hilen hi0 hS hW hL)
          · intro r hr
            rw [drain_phys_ok T uses pri cur fuel ss q led sched i (q.erase i) hpop hlim
              hres] at hr
            obtain ⟨hA, hB, hCc, hD, hE, hF2, hG3, hH, hI, hJ⟩ := ih2 r hr
            refine ⟨hA, hB, hCc, hD, hE, ?_, ?_, hH, hI, ?_⟩
            · intro j hj
              exact hq2sub j (hF2 j hj)
            · intro k hk
              have hknot : k ∉ q.erase i := fun hmem => hk (hq2sub k hmem)
              have hki : i ≠ k := fun he => hk (he ▸ hiq)
              rw [hG3 k hknot, getD_set_ne ss _ hki]
            · intro hW hL
              exact hJ hW
                (sched_step_Led_phys base deps uses cur hcur ss led i hin hilen hi0 hS hW hL)
        · refine ⟨?_, ?_⟩
          · intro hW hL
            rw [drain_phys_break T uses pri cur fuel ss q led sched i (q.erase i) hpop hlim
                hres,
              drainSpec_phys_break T uses pri cur fuel ss q sched i (q.erase i) hpop hlim
                hres]
            rfl
          · intro r hr
            rw [drain_phys_break T uses pri cur fuel ss q led sched i (q.erase i) hpop hlim
              hres] at hr
            have hrr := Option.some.inj hr
            subst hrr
            exact ⟨hS, hQ3, hG, hR, hnd3, hsub3, fun k _ => rfl, hC, hsch, fun _ hL => hL⟩

theorem listLoopSpec_succ_lit (n : Nat) (T : Time) (deps uses : List (List Nat))
    (pri : List Int) (fuel : Nat) (ss : List Stmt) (C : Finset Nat)
    (nr q : List Nat) (cyc : Int) :
    listLoopSpec n T deps uses pri (fuel + 1) ⟨ss, C, nr, q, cyc⟩ =
      if C.card < n then
        match drainSpec T uses pri cyc fuel ss q [] with
        | none => none
        | some r =>
          listLoopSpec n T deps uses pri fuel
            ⟨r.1, r.2.2.foldl (fun s i => insert i s) C,
             nr.filter fun i =>
               ¬ isReady deps r.1 (r.2.2.foldl (fun s i => insert i s) C) cyc i,
             r.2.1 ++ nr.filter
               (isReady deps r.1 (r.2.2.foldl (fun s i => insert i s) C) cyc),
             cyc + 1⟩
      else some ss := rfl

theorem loop_master (T : Time) (base : List Stmt) (deps uses : List (List Nat))
    (pri : List Int) :
    ∀ (fuel : Nat) (st : LoopState),
      LInv base deps uses st.stmts st.completed st.notReady st.queue st.led st.cycle →
      ((WFAdj base deps uses →
          listLoop base.length T deps uses pri fuel st
            = listLoopSpec base.length T deps uses pri fuel
                ⟨st.stmts, st.completed, st.notReady, st.queue, st.cycle⟩) ∧
        ∀ out, listLoop base.length T deps uses pri fuel st = some out →
          out.length = base.length ∧
          (∀ j, j < base.length →
            out.getD j default
              = { base.getD j default with
                  start_cycle := (out.getD j default).start_cycle }) ∧
          (∀ j, j < base.length → 1 ≤ (out.getD j default).start_cycle) ∧
          (∀ j, j < base.length → ∀ d ∈ deps.getD j [],
            (out.getD d default).start_cycle + max (out.getD d default).op.latency 1
              ≤ (out.getD j default).start_cycle) ∧
          RInv base out) := by
  intro fuel
  induction fuel with
  | zero =>
    intro st _
    refine ⟨fun _ => rfl, fun out hout => ?_⟩
    simp [listLoop] at hout
  | succ fuel ih =>
    intro st hI
    obtain ⟨hS, hQ, hG, hR, hNR, hCp, hndq, hndnr, hdisj, hcyc, hLedC⟩ := hI
    by_cases hcard : st.completed.card < base.length
    · obtain ⟨dm1, dm2⟩ := drain_master T base deps uses pri st.completed st.cycle hcyc
        fuel st.stmts st.queue st.led [] hS hQ hG hR hndq
        (fun d hd => (hCp d hd).2) (fun j hj => absurd hj (List.not_mem_nil j))
      cases hdr : drain T uses pri st.cycle fuel st.stmts st.queue st.led [] with
      | none =>
        refine ⟨?_, ?_⟩
        · intro hW
          have hsp : drainSpec T uses pri st.cycle fuel st.stmts st.queue [] = none := by
            have h2 := dm1 hW (hLedC hW)
            rw [hdr] at h2
            exact h2.symm
          rw [listLoop_succ, if_pos hcard, hdr, listLoopSpec_succ_lit, if_pos hcard, hsp]
        · intro out hout
          rw [listLoop_succ, if_pos hcard, hdr] at hout
          simp at hout
      | some r =>
        obtain ⟨hA, hB, hCc, hD, hE, hF2, hG3, hH, hI2, hJ⟩ := dm2 r hdr
        have hcomp2 : ∀ x, (x ∈ r.sched.foldl (fun s i => insert i s) st.completed)
            ↔ x ∈ r.sched ∨ x ∈ st.completed :=
          fun x => mem_foldl_insert r.sched st.completed x
        have hCp2 : ∀ j ∈ r.sched.foldl (fun s i => insert i s) st.completed,
            j < base.length ∧ (r.stmts.getD j default).start_cycle ≠ 0 := by
          intro j hj
          rcases (hcomp2 j).mp hj with hj | hj
          · exact hI2 j hj
          · exact ⟨(hCp j hj).1, hH j hj⟩
        have hNR2 : ∀ j ∈ st.notReady,
            r.stmts.getD j default = st.stmts.getD j default := by
          intro j hj
          exact hG3 j (fun hjq => hdisj j hjq hj)
        have hLI : LInv base deps uses r.stmts
            (r.sched.foldl (fun s i => insert i s) st.completed)
            (st.notReady.filter fun i =>
               ¬ isReady deps r.stmts
                 (r.sched.foldl (fun s i => insert i s) st.completed) st.cycle i)
            (r.queue ++ st.notReady.filter
               (isReady deps r.stmts
                 (r.sched.foldl (fun s i => insert i s) st.completed) st.cycle))
            r.led (st.cycle + 1) := by
          refine ⟨⟨hA.1, hA.2.1, ?_⟩, ?_, hCc, hD, ?_, hCp2, ?_, hndnr.filter _, ?_, by omega, ?_⟩
          · intro s2 hs2 hne
            obtain ⟨h1, h2⟩ := hA.2.2 s2 hs2 hne
            exact ⟨h1, by omega⟩
          · intro j hj
            rcases List.mem_append.mp hj with hj | hj
            · obtain ⟨hjn, hj0, hjd⟩ := hB j hj
              refine ⟨hjn, hj0, fun d hd => ?_⟩
              refine ⟨(hcomp2 d).mpr (Or.inr (hjd d hd).1), ?_⟩
              have := (hjd d hd).2
              omega
            · obtain ⟨hjnr, hjrd⟩ := List.mem_filter.mp hj
              obtain ⟨hjn, hj0⟩ := hNR j hjnr
              refine ⟨hjn, by rw [hNR2 j hjnr]; exact hj0, fun d hd => ?_⟩
              have hrdy := hjrd
              unfold isReady at hrdy
              rw [List.all_eq_true] at hrdy
              exact of_decide_eq_true (hrdy d hd)
          · intro j hj
            obtain ⟨hjnr, _⟩ := List.mem_filter.mp hj
            exact ⟨(hNR j hjnr).1, by rw [hNR2 j hjnr]; exact (hNR j hjnr).2⟩
          · refine hE.append (hndnr.filter _) (List.disjoint_left.mpr ?_)
            intro a ha hap
            exact hdisj a (hF2 a ha) (List.mem_filter.mp hap).1
          · intro j hj hmem
            rcases List.mem_append.mp hj with hj | hj
            · exact hdisj j (hF2 j hj) (List.mem_filter.mp hmem).1
            · exact (of_decide_eq_true (List.mem_filter.mp hmem).2)
                (List.mem_filter.mp hj).2
          · intro hW
            exact hJ hW (hLedC hW)
        obtain ⟨ihl1, ihl2⟩ := ih
          ⟨r.stmts, r.sched.foldl (fun s i => insert i s) st.completed,
           st.notReady.filter fun i =>
             ¬ isReady deps r.stmts
               (r.sched.foldl (fun s i => insert i s) st.completed) st.cycle i,
           r.queue ++ st.notReady.filter
             (isReady deps r.stmts
               (r.sched.foldl (fun s i => insert i s) st.completed) st.cycle),
           r.led, st.cycle + 1⟩ hLI
        refine ⟨?_, ?_⟩
        · intro hW
          have hsp : drainSpec T uses pri st.cycle fuel st.stmts st.queue []
              = some (r.stmts, r.queue, r.sched) := by
            have h2 := dm1 hW (hLedC hW)
            rw [hdr] at h2
            exact h2.symm
          rw [listLoop_succ, if_pos hcard, hdr, listLoopSpec_succ_lit, if_pos hcard, hsp]
          exact ihl1 hW
        · intro out hout
          rw [listLoop_succ, if_pos hcard, hdr] at hout
          exact ihl2 out hout
    · refine ⟨?_, ?_⟩
      · intro hW
        rw [listLoop_succ, if_neg hcard, listLoopSpec_succ_lit, if_neg hcard]
      · intro out hout
        rw [listLoop_succ, if_neg hcard] at hout
        have hoeq := Option.some.inj hout
        subst hoeq
        have hceq : st.completed = Finset.range base.length := by
          apply Finset.eq_of_subset_of_card_le
          · intro x hx
            rw [Finset.mem_range]
            exact (hCp x hx).1
          · rw [Finset.card_range]
            omega
        have hall : ∀ j, j < base.length → (st.stmts.getD j default).start_cycle ≠ 0 := by
          intro j hj
          exact (hCp j (by rw [hceq]; exact Finset.mem_range.mpr hj)).2
        refine ⟨hS.1, hS.2.1, ?_, ?_, hR⟩
        · intro j hj
          have hmem : st.stmts.getD j default ∈ st.stmts := by
            rw [List.getD_eq_getElem _ _ (by rw [hS.1]; exact hj)]
            exact List.getElem_mem _
          exact (hS.2.2 _ hmem (hall j hj)).1
        · intro j hj d hd
          exact (hG j hj (hall j hj) d hd).2

theorem countP_congr_mem (p q : Stmt → Bool) :
    ∀ l : List Stmt, (∀ a ∈ l, p a = q a) → l.countP p = l.countP q
  | [], _ => rfl
  | a :: t, h => by
    rw [List.countP_cons, List.countP_cons,
      countP_congr_mem p q t fun b hb => h b (List.mem_cons_of_mem a hb),
      h a (List.mem_cons_self a t)]

theorem sbl_master (stmts : List Stmt) (deps uses : List (List Nat)) (T : Time)
    (fuel : Nat) :
    ((WFAdj (stmts.map fun s => { s with start_cycle := 0 }) deps uses →
        scheduleByList stmts deps uses T fuel
          = scheduleByListSpec stmts deps uses T fuel) ∧
      ∀ out L, scheduleByList stmts deps uses T fuel = some (out, L) →
        out.length = stmts.length ∧
        (∀ j, j < stmts.length → 1 ≤ (out.getD j default).start_cycle) ∧
        (∀ j, j < stmts.length → ∀ d ∈ deps.getD j [],
          (out.getD d default).start_cycle + max (out.getD d default).op.latency 1
            ≤ (out.getD j default).start_cycle) ∧
        RInv (stmts.map fun s => { s with start_cycle := 0 }) out ∧
        (∀ j, j < stmts.length →
          out.getD j default
            = { stmts.getD j default with
                start_cycle := (out.getD j default).start_cycle })) := by
  have hb : (stmts.map fun s => { s with start_cycle := 0 }).length = stmts.length := by
    simp
  have hInit : LInv (stmts.map fun s => { s with start_cycle := 0 }) deps uses
      (stmts.map fun s => { s with start_cycle := 0 }) ∅
      ((List.range stmts.length).filter fun i => ¬ (deps.getD i []).isEmpty)
      ((List.range stmts.length).filter fun i => (deps.getD i []).isEmpty)
      Ledger.empty 1 := by
    refine ⟨⟨rfl, fun j _ => rfl, ?_⟩, ?_, ?_, ?_, ?_, ?_, (List.nodup_range _).filter _,
      (List.nodup_range _).filter _, ?_, le_refl 1, ?_⟩
    · intro s2 hs2 hne
      obtain ⟨s3, _, rfl⟩ := List.mem_map.mp hs2
      exact absurd rfl hne
    · intro j hj
      obtain ⟨hjr, hemp⟩ := List.mem_filter.mp hj
      have hjn : j < stmts.length := List.mem_range.mp hjr
      refine ⟨by rw [hb]; exact hjn, by rw [getD_map_reset], fun d hd => ?_⟩
      rw [List.isEmpty_iff.mp hemp] at hd
      exact absurd hd (List.not_mem_nil d)
    · intro j hjn hjne
      rw [getD_map_reset] at hjne
      exact absurd rfl hjne
    · intro op hop _ c
      have hz : ((stmts.map fun s => { s with start_cycle := 0 }).countP fun s2 =>
          s2.start_cycle ≠ 0 ∧ s2.op.name = op.name ∧ s2.start_cycle ≤ c ∧
            c < s2.start_cycle + s2.op.latency : Nat) = 0 := by
        apply List.countP_eq_zero.mpr
        intro s2 hs2
        obtain ⟨s3, _, rfl⟩ := List.mem_map.mp hs2
        simp
      rw [hz]
      simpa using hop
    · intro j hj
      obtain ⟨hjr, _⟩ := List.mem_filter.mp hj
      exact ⟨by rw [hb]; exact List.mem_range.mp hjr, by rw [getD_map_reset]⟩
    · intro j hj
      exact absurd hj (Finset.not_mem_empty j)
    · intro j hj hmem
      obtain ⟨_, hemp⟩ := List.mem_filter.mp hj
      obtain ⟨_, hnemp⟩ := List.mem_filter.mp hmem
      exact (of_decide_eq_true hnemp) hemp
    · intro _
      intro c j hcj
      exact absurd rfl hcj
  obtain ⟨lm1, lm2⟩ := loop_master T (stmts.map fun s => { s with start_cycle := 0 })
    deps uses (stmts.map fun s => s.start_cycle) fuel
    ⟨stmts.map fun s => { s with start_cycle := 0 }, ∅,
     (List.range stmts.length).filter fun i => ¬ (deps.getD i []).isEmpty,
     (List.range stmts.length).filter fun i => (deps.getD i []).isEmpty,
     Ledger.empty, 1⟩ hInit
  rw [hb] at lm1 lm2
  have e1 : scheduleByList stmts deps uses T fuel
      = wrapResult (listLoop stmts.length T deps uses
          (stmts.map fun s => s.start_cycle) fuel
          ⟨stmts.map fun s => { s with start_cycle := 0 }, ∅,
           (List.range stmts.length).filter fun i => ¬ (deps.getD i []).isEmpty,
           (List.range stmts.length).filter fun i => (deps.getD i []).isEmpty,
           Ledger.empty, 1⟩) := rfl
  have e2 : scheduleByListSpec stmts deps uses T fuel
      = wrapResult (listLoopSpec stmts.length T deps uses
          (stmts.map fun s => s.start_cycle) fuel
          ⟨stmts.map fun s => { s with start_cycle := 0 }, ∅,
           (List.range stmts.length).filter fun i => ¬ (deps.getD i []).isEmpty,
           (List.range stmts.length).filter fun i => (deps.getD i []).isEmpty,
           1⟩) := rfl
  refine ⟨?_, ?_⟩
  · intro hW
    rw [e1, e2, lm1 hW]
  · intro out L hout
    rw [e1] at hout
    cases hlo : listLoop stmts.length T deps uses
        (stmts.map fun s => s.start_cycle) fuel
        ⟨stmts.map fun s => { s with start_cycle := 0 }, ∅,
         (List.range stmts.length).filter fun i => ¬ (deps.getD i []).isEmpty,
         (List.range stmts.length).filter fun i => (deps.getD i []).isEmpty,
         Ledger.empty, 1⟩ with
    | none =>
      rw [hlo] at hout
      simp [wrapResult] at hout
    | some out2 =>
      rw [hlo] at hout
      have hout2 : out2 = out ∧ finalLatency out2 = L := by
        simpa [wrapResult] using hout
      obtain ⟨rfl, _⟩ := hout2
      obtain ⟨hlen, hfr, hpos, hprec, hRf⟩ := lm2 out2 hlo
      refine ⟨hlen, hpos, hprec, hRf, ?_⟩
      intro j hj
      have h4 := hfr j hj
      rw [getD_map_reset stmts j] at h4
      exact h4
theorem fourMuls_run :
    scheduleByList fourMuls fourNil fourNil 1 8 = some (fourMulsOut, 2) := by
  have d1 : drain 1 fourNil fourPri 1 7 fourMuls [0, 1, 2, 3] Ledger.empty []
      = some ⟨fourMulsMid, [3, 2], Ledger.empty, [0, 1]⟩ := rfl
  have d2 : drain 1 fourNil fourPri 2 6 fourMulsMid [3, 2] Ledger.empty []
      = some ⟨fourMulsOut, [], Ledger.empty, [2, 3]⟩ := rfl
  have s1 : listLoop 4 1 fourNil fourNil fourPri (7 + 1)
        ⟨fourMuls, ∅, [], [0, 1, 2, 3], Ledger.empty, 1⟩
      = listLoop 4 1 fourNil fourNil fourPri 7
        ⟨fourMulsMid, insert 1 (insert 0 ∅), [], [3, 2], Ledger.empty, 2⟩ := by
    rw [listLoop_succ, d1]
    rfl
  have s2 : listLoop 4 1 fourNil fourNil fourPri (6 + 1)
        ⟨fourMulsMid, insert 1 (insert 0 ∅), [], [3, 2], Ledger.empty, 2⟩
      = listLoop 4 1 fourNil fourNil fourPri 6
        ⟨fourMulsOut, insert 3 (insert 2 (insert 1 (insert 0 ∅))), [], [],
         Ledger.empty, 3⟩ := by
    rw [listLoop_succ, d2]
    rfl
  have s3 : listLoop 4 1 fourNil fourNil fourPri (5 + 1)
        ⟨fourMulsOut, insert 3 (insert 2 (insert 1 (insert 0 ∅))), [], [],
         Ledger.empty, 3⟩
      = some fourMulsOut := by
    rw [listLoop_succ]
    rfl
  have run := s1.trans (s2.trans s3)
  have h1 : scheduleByList fourMuls fourNil fourNil 1 8
      = wrapResult (listLoop 4 1 fourNil fourNil fourPri (7 + 1)
          ⟨fourMuls, ∅, [], [0, 1, 2, 3], Ledger.empty, 1⟩) := rfl
  rw [h1, run]
  rfl

theorem chainPri_run :
    scheduleByList chainPri chainDeps chainUses 1 8 = some (chainC1out, 3) := by
  have d1 : drain 1 chainUses chainPriKeys 1 7 chainC1 [0] Ledger.empty []
      = some ⟨chainMidA, [], chainLedA, [0]⟩ := rfl
  have d2 : drain 1 chainUses chainPriKeys 2 6 chainMidA [1] chainLedA []
      = some ⟨chainMidB, [], chainLedB, [1]⟩ := rfl
  have d3 : drain 1 chainUses chainPriKeys 3 5 chainMidB [2] chainLedB []
      = some ⟨chainC1out, [], chainLedB, [2]⟩ := rfl
  have s1 : listLoop 3 1 chainDeps chainUses chainPriKeys (7 + 1)
        ⟨chainC1, ∅, [1, 2], [0], Ledger.empty, 1⟩
      = listLoop 3 1 chainDeps chainUses chainPriKeys 7
        ⟨chainMidA, insert 0 ∅, [2], [1], chainLedA, 2⟩ := by
    rw [listLoop_succ, d1]
    rfl
  have s2 : listLoop 3 1 chainDeps chainUses chainPriKeys (6 + 1)
        ⟨chainMidA, insert 0 ∅, [2], [1], chainLedA, 2⟩
      = listLoop 3 1 chainDeps chainUses chainPriKeys 6
        ⟨chainMidB, insert 1 (insert 0 ∅), [], [2], chainLedB, 3⟩ := by
    rw [listLoop_succ, d2]
    rfl
  have s3 : listLoop 3 1 chainDeps chainUses chainPriKeys (5 + 1)
        ⟨chainMidB, insert 1 (insert 0 ∅), [], [2], chainLedB, 3⟩
      = listLoop 3 1 chainDeps chainUses chainPriKeys 5
        ⟨chainC1out, insert 2 (insert 1 (insert 0 ∅)), [], [], chainLedB, 4⟩ := by
    rw [listLoop_succ, d3]
    rfl
  have s4 : listLoop 3 1 chainDeps chainUses chainPriKeys (4 + 1)
        ⟨chainC1out, insert 2 (insert 1 (insert 0 ∅)), [], [], chainLedB, 4⟩
      = some chainC1out := by
    rw [listLoop_succ]
    rfl
  have run := s1.trans (s2.trans (s3.trans s4))
  have h1 : scheduleByList chainPri chainDeps chainUses 1 8
      = wrapResult (listLoop 3 1 chainDeps chainUses chainPriKeys (7 + 1)
          ⟨chainC1, ∅, [1, 2], [0], Ledger.empty, 1⟩) := rfl
  rw [h1, run]
  rfl

/-- C6: precedence invariant of the final schedule.  Whenever the list
scheduler terminates with a schedule `out`, every dependency edge `j → i`
satisfies `start_cycle[i] ≥ start_cycle[j] + max(latency[j], 1) −
[latency[j] = 0]`.  (The code in fact guarantees the stronger bound without
the combinational-sharing allowance, because a consumer is only promoted to
the ready queue once `start[j] + max(latency[j], 1) ≤ cycle + 1`.) -/
theorem list_scheduler_precedence (stmts : List Stmt) (deps uses : List (List Nat))
    (T : Time) (fuel : Nat) (out : List Stmt) (L : Int)
    (h : scheduleByList stmts deps uses T fuel = some (out, L)) :
    ∀ i ∈ List.range stmts.length, ∀ j ∈ deps.getD i [],
      (out.getD j default).start_cycle + max (out.getD j default).op.latency 1
          - (if (out.getD j default).op.latency = 0 then 1 else 0)
        ≤ (out.getD i default).start_cycle := by
  intro i hi j hj
  obtain ⟨_, _, hprec, _, _⟩ := (sbl_master stmts deps uses T fuel).2 out L h
  have h2 := hprec i (List.mem_range.mp hi) j hj
  by_cases h0 : (out.getD j default).op.latency = 0
  · rw [if_pos h0]
    omega
  · rw [if_neg h0]
    omega

theorem list_scheduler_precedence_witness :
    scheduleByList chainPri chainDeps chainUses 1 8 = some (chainC1out, 3) ∧
    (∀ i ∈ List.range chainPri.length, ∀ j ∈ chainDeps.getD i [],
      (chainC1out.getD j default).start_cycle
          + max (chainC1out.getD j default).op.latency 1
          - (if (chainC1out.getD j default).op.latency = 0 then 1 else 0)
        ≤ (chainC1out.getD i default).start_cycle) :=
  ⟨chainPri_run,
    list_scheduler_precedence chainPri chainDeps chainUses 1 8 chainC1out 3
      chainPri_run⟩

/-- C5: resource invariant of the final schedule.  Whenever the list scheduler
terminates with a schedule `out`, then for every op kind `op` with
`limit ≥ 0` whose name determines its record among the statements, and every
cycle `c`, the number of statements of that kind whose busy interval
`[start_cycle, start_cycle + latency)` contains `c` is at most `op.limit`. -/
theorem list_scheduler_resource (stmts : List Stmt) (deps uses : List (List Nat))
    (T : Time) (fuel : Nat) (out : List Stmt) (L : Int) (op : Op) (c : Int)
    (h : scheduleByList stmts deps uses T fuel = some (out, L))
    (hop : 0 ≤ op.limit)
    (hname : ∀ j ∈ List.range stmts.length,
      (stmts.getD j default).op.name = op.name → (stmts.getD j default).op = op) :
    ((out.countP fun s2 => s2.op.name = op.name ∧ s2.start_cycle ≤ c ∧
        c < s2.start_cycle + s2.op.latency : Nat) : Int) ≤ op.limit := by
  obtain ⟨hlen, hpos, _, hRf, _⟩ := (sbl_master stmts deps uses T fuel).2 out L h
  have hdet : ∀ j, j < (stmts.map fun (s : Stmt) => { s with start_cycle := 0 }).length →
      ((stmts.map fun (s : Stmt) => { s with start_cycle := 0 }).getD j default).op.name
        = op.name →
      ((stmts.map fun (s : Stmt) => { s with start_cycle := 0 }).getD j default).op
        = op := by
    intro j hj hn
    have hj2 : j < stmts.length := by
      rw [List.length_map] at hj
      exact hj
    rw [getD_map_reset stmts j] at hn ⊢
    exact hname j (List.mem_range.mpr hj2) hn
  have hcount := hRf op hop hdet c
  have hmempos : ∀ s2 ∈ out, s2.start_cycle ≠ 0 := by
    intro s2 hs2
    obtain ⟨k, hk, hks⟩ := List.mem_iff_getElem.mp hs2
    have hk2 : k < stmts.length := by rw [← hlen]; exact hk
    have h5 := hpos k hk2
    rw [List.getD_eq_getElem out default hk, hks] at h5
    omega
  have hcc : (out.countP fun s2 => s2.op.name = op.name ∧ s2.start_cycle ≤ c ∧
        c < s2.start_cycle + s2.op.latency : Nat)
      = (out.countP fun s2 => s2.start_cycle ≠ 0 ∧ s2.op.name = op.name ∧
        s2.start_cycle ≤ c ∧ c < s2.start_cycle + s2.op.latency : Nat) := by
    apply countP_congr_mem
    intro a ha
    exact decide_eq_decide.mpr
      ⟨fun hp => ⟨hmempos a ha, hp⟩, fun hq => hq.2⟩
  rw [hcc]
  exact hcount

theorem list_scheduler_resource_witness :
    (scheduleByList fourMuls fourNil fourNil 1 8 = some (fourMulsOut, 2) ∧
      (0 : Int) ≤ mulOp.limit ∧
      (∀ j ∈ List.range fourMuls.length,
        (fourMuls.getD j default).op.name = mulOp.name →
        (fourMuls.getD j default).op = mulOp)) ∧
    ((fourMulsOut.countP fun s2 => s2.op.name = mulOp.name ∧ s2.start_cycle ≤ 1 ∧
        (1 : Int) < s2.start_cycle + s2.op.latency : Nat) : Int) ≤ mulOp.limit :=
  ⟨⟨fourMuls_run, by decide, by decide⟩,
    list_scheduler_resource fourMuls fourNil fourNil 1 8 fourMulsOut 2 mulOp 1
      fourMuls_run (by decide) (by decide)⟩

/-- C2 (amended): the per-cycle delay ledger never influences any scheduling
decision *provided the adjacency caches are well-formed* (`idx` equals
position and `uses` contained in the transpose of `deps`).  Under that
hypothesis every ledger read made when the drain loop tests a popped
statement yields accumulated delay `0` — each entry is written at a cycle
strictly before the earliest cycle at which its consumer can be popped — so
`scheduleByList` coincides with the ledger-free variant
`scheduleByListSpec`, which schedules a ready combinational statement in the
current cycle iff its own `op.delay ≤ T` and maintains no ledger at all.
Without the hypothesis the property fails on runs reachable through the
buggy canonicalizer: see `stale_ledger_blocks_scheduling`. -/
theorem ledger_writes_never_influence (stmts : List Stmt)
    (deps uses : List (List Nat)) (T : Time) (fuel : Nat)
    (hidx : ∀ j ∈ List.range stmts.length, (stmts.getD j default).idx = j)
    (htrans : ∀ i ∈ List.range stmts.length, ∀ k ∈ uses.getD i [],
      k ∈ List.range stmts.length ∧ i ∈ deps.getD k []) :
    scheduleByList stmts deps uses T fuel
      = scheduleByListSpec stmts deps uses T fuel := by
  apply (sbl_master stmts deps uses T fuel).1
  constructor
  · intro j hj
    rw [List.length_map] at hj
    rw [getD_map_reset stmts j]
    exact hidx j (List.mem_range.mpr hj)
  · intro i hi k hk
    rw [List.length_map] at hi
    obtain ⟨hk1, hk2⟩ := htrans i (List.mem_range.mpr hi) k hk
    refine ⟨?_, hk2⟩
    rw [List.length_map]
    exact List.mem_range.mp hk1

theorem ledger_writes_never_influence_witness :
    ((∀ j ∈ List.range chainPri.length, (chainPri.getD j default).idx = j) ∧
      (∀ i ∈ List.range chainPri.length, ∀ k ∈ chainUses.getD i [],
        k ∈ List.range chainPri.length ∧ i ∈ chainDeps.getD k [])) ∧
    scheduleByList chainPri chainDeps chainUses ⟨1, 2⟩ 8
      = scheduleByListSpec chainPri chainDeps chainUses ⟨1, 2⟩ 8 :=
  ⟨⟨by decide, by decide⟩,
    ledger_writes_never_influence chainPri chainDeps chainUses ⟨1, 2⟩ 8
      (by decide) (by decide)⟩

/-- The drain spin of the C2 counterexample: position 0 (own delay `0.6`)
reads the stale ledger entry `0.6` at the current cycle, fails
`0.6 + 0.6 ≤ 1`, is pushed back and immediately re-popped. -/
theorem drain_cexC2_spin :
    ∀ f : Nat, drain 1 cexUses2 cexPri 1 f cexSpin [0] cexLed [1, 2] = none
  | 0 => rfl
  | f + 1 => by
    have e : drain 1 cexUses2 cexPri 1 (f + 1) cexSpin [0] cexLed [1, 2] =
        drain 1 cexUses2 cexPri 1 f cexSpin [0] cexLed [1, 2] := rfl
    rw [e]
    exact drain_cexC2_spin f

/-- From the cycle-1 entry state, the drain loop schedules positions 1 and 2
and then spins on position 0 forever. -/
theorem drain_cexC2_entry :
    ∀ f : Nat,
      drain 1 cexUses2 cexPri 1 f cexReordered [0, 1, 2] Ledger.empty [] = none
  | 0 => rfl
  | 1 => rfl
  | 2 => rfl
  | f + 3 => by
    have e : drain 1 cexUses2 cexPri 1 (f + 3) cexReordered [0, 1, 2]
          Ledger.empty [] =
        drain 1 cexUses2 cexPri 1 f cexSpin [0] cexLed [1, 2] := rfl
    rw [e]
    exact drain_cexC2_spin f

/-- Outer loop wrapper for `drain_cexC2_entry`. -/
theorem listLoop_cexC2 :
    ∀ f : Nat,
      listLoop 4 1 cexDeps2 cexUses2 cexPri f
        ⟨cexReordered, ∅, [3], [0, 1, 2], Ledger.empty, 1⟩ = none
  | 0 => rfl
  | f + 1 => by
    rw [listLoop_succ, drain_cexC2_entry f]
    rfl

/-- C2 counterexample: on reachable runs a decision-time ledger read can be
nonzero and change a scheduling decision.  On `cexC2` (presented out of
order) the canonicalizer leaves the stale adjacency `cexDeps2`/`cexUses2`
(see C7), under which `uses` is no longer the transpose of `deps`: when the
list scheduler schedules position 1 at cycle 1 it writes delay `0.6` into
position 0's ledger entry *for the same cycle*; position 0 is popped later in
that very cycle, its decision-time read returns `0.6 ≠ 0`, the test
`0.6 + 0.6 ≤ 1` fails, and the drain loop re-pops it forever — `schedule`
never terminates — whereas the ledger-free variant on identical data
terminates with starts `[1, 1, 1, 2]` and latency `2`.  So the ledger writes
do influence scheduling decisions. -/
theorem stale_ledger_blocks_scheduling :
    reorderToTopological cexC2 (get_deps_and_uses cexC2).1
        (get_deps_and_uses cexC2).2
      = Except.ok (cexReordered, cexDeps2, cexUses2) ∧
    (∀ fuel : Nat, scheduleByList cexAlap cexDeps2 cexUses2 1 fuel = none) ∧
    (∀ fuel : Nat, schedule cexC2 1 fuel = Except.ok none) ∧
    scheduleByListSpec cexAlap cexDeps2 cexUses2 1 9 = some (cexSpecOut, 2) := by
  have hbl : ∀ fuel : Nat, scheduleByList cexAlap cexDeps2 cexUses2 1 fuel = none := by
    intro fuel
    have h1 : scheduleByList cexAlap cexDeps2 cexUses2 1 fuel
        = wrapResult (listLoop 4 1 cexDeps2 cexUses2 cexPri fuel
            ⟨cexReordered, ∅, [3], [0, 1, 2], Ledger.empty, 1⟩) := rfl
    rw [h1, listLoop_cexC2 fuel]
    rfl
  refine ⟨rfl, hbl, ?_, ?_⟩
  · intro fuel
    have h0 : schedule cexC2 1 fuel
        = Except.ok (scheduleByList cexAlap cexDeps2 cexUses2 1 fuel) := rfl
    rw [h0, hbl fuel]
  · have dsp1 : drainSpec 1 cexUses2 cexPri 1 8 cexReordered [0, 1, 2] []
        = some (cexSpecMid1, [], [1, 2, 0]) := rfl
    have dsp2 : drainSpec 1 cexUses2 cexPri 2 7 cexSpecMid1 [3] []
        = some (cexSpecOut, [], [3]) := rfl
    have sp1 : listLoopSpec 4 1 cexDeps2 cexUses2 cexPri (8 + 1)
          ⟨cexReordered, ∅, [3], [0, 1, 2], 1⟩
        = listLoopSpec 4 1 cexDeps2 cexUses2 cexPri 8
          ⟨cexSpecMid1, insert 0 (insert 2 (insert 1 ∅)), [], [3], 2⟩ := by
      rw [listLoopSpec_succ_lit, dsp1]
      rfl
    have sp2 : listLoopSpec 4 1 cexDeps2 cexUses2 cexPri (7 + 1)
          ⟨cexSpecMid1, insert 0 (insert 2 (insert 1 ∅)), [], [3], 2⟩
        = listLoopSpec 4 1 cexDeps2 cexUses2 cexPri 7
          ⟨cexSpecOut, insert 3 (insert 0 (insert 2 (insert 1 ∅))), [], [], 3⟩ := by
      rw [listLoopSpec_succ_lit, dsp2]
      rfl
    have sp3 : listLoopSpec 4 1 cexDeps2 cexUses2 cexPri (6 + 1)
          ⟨cexSpecOut, insert 3 (insert 0 (insert 2 (insert 1 ∅))), [], [], 3⟩
        = some cexSpecOut := by
      rw [listLoopSpec_succ_lit]
      rfl
    have run2 := sp1.trans (sp2.trans sp3)
    have h2 : scheduleByListSpec cexAlap cexDeps2 cexUses2 1 9
        = wrapResult (listLoopSpec 4 1 cexDeps2 cexUses2 cexPri (8 + 1)
            ⟨cexReordered, ∅, [3], [0, 1, 2], 1⟩) := rfl
    rw [h2, run2]
    rfl

end Scheduler
